import Mathlib

/-!
# Shooter relay server (`server.js`): session registry and broadcast fan-out

A shallow embedding of the WebSocket relay in `server.js`.

* JavaScript values that reach the handlers come out of `JSON.parse`; they are
  modelled by `Val`.  A number is the rational it denotes (`JSON.parse` never
  yields `NaN`, and `-0` is identified with `0`, which `||`, `===` and `Map` keys
  do as well); the handlers only test numbers for truthiness and equality.
  Objects and arrays are compared by reference; they carry a reference and
  whether conversion to a string succeeds (it throws a `TypeError` for an object
  with an own property `toString`, which `JSON.parse` never makes callable, and
  for an array that contains such an object).
* The `console.log` calls whose template literal converts a message value to a
  string are modelled by that conversion: when it throws, the handler ends
  there.  In the message handler the `catch` takes the exception; in the close
  handler and in the sweep nothing does, and the trace records `Out.uncaught`.
  What the runtime does with an exception nothing catches is outside
  `server.js`: the model keeps the state the handler left.
* `players` (a JavaScript `Map`) is an association list in insertion order.
* `ws.send` is recorded in an output trace; `JSON.stringify` is not modelled, a
  message is identified with the object handed to it.
* `Date.now()` is an input of the handlers that read it.
-/

namespace Shooter

/-- A value produced by `JSON.parse`, or `undefined` for a property that is absent. -/
inductive Val where
  | undefined
  | null
  | bool (b : Bool)
  | num (q : ℚ)
  | str (s : String)
  | ref (r : Nat) (printable : Bool)
  deriving DecidableEq

/-- JavaScript truthiness (`ToBoolean`). -/
def Val.truthy : Val → Bool
  | .undefined => false
  | .null => false
  | .bool b => b
  | .num q => decide (q ≠ 0)
  | .str s => decide (s ≠ "")
  | .ref _ _ => true

/-- Whether `ToString` succeeds on the value, as a template literal `${v}` needs: every
primitive converts, an object or array converts unless it is marked otherwise. -/
def Val.printable : Val → Bool
  | .ref _ p => p
  | _ => true

/-- The JavaScript expression `a || b`. -/
def Val.or (a b : Val) : Val := if a.truthy then a else b

/-- A WebSocket connection object (`ws`), identified by a number. -/
abbrev Chan := Nat

/-- The property reads the handlers perform on a parsed, non-null message `data`.  A
property the value does not have reads as `undefined`; so does every property of a parsed
number, string, boolean or array. -/
structure Data where
  type : Val
  id : Val
  name : Val
  x : Val
  y : Val
  z : Val
  yaw : Val
  pitch : Val
  hp : Val
  score : Val
  weapon : Val
  deriving DecidableEq

/-- The outcome of `JSON.parse(message)` as far as the handler can tell: it throws
(`malformed`), it returns `null`, or it returns a value whose properties can be read. -/
inductive Inbound where
  | malformed
  | jsonNull
  | value (data : Data)
  deriving DecidableEq

/-- A record stored in `players`. -/
structure Player where
  id : Val
  name : Val
  x : Val
  y : Val
  z : Val
  yaw : Val
  pitch : Val
  hp : Val
  score : Val
  weapon : Val
  lastUpdate : Int
  ws : Chan
  deriving DecidableEq

/-- The numeric literal `1.7`, the default eye height of a joining player. -/
def eyeHeight : ℚ := ⟨17, 10, by decide, by decide⟩

/-- The object literal built by `.map(p => (...))` for `init`, and the `player` field of
`player_joined`. -/
structure PublicView where
  id : Val
  name : Val
  x : Val
  y : Val
  z : Val
  yaw : Val
  pitch : Val
  hp : Val
  score : Val
  weapon : Val
  deriving DecidableEq

/-- The `player` field of a `player_update` message (no `name`). -/
structure UpdateView where
  id : Val
  x : Val
  y : Val
  z : Val
  yaw : Val
  pitch : Val
  hp : Val
  score : Val
  weapon : Val
  deriving DecidableEq

/-- The objects the server hands to `JSON.stringify`. -/
inductive ServerMsg where
  | init (players : List PublicView)
  | player_joined (player : PublicView)
  | player_update (player : UpdateView)
  | player_left (id : Val)
  deriving DecidableEq

/-- One entry of the output trace: a direct `ws.send`, one call of `broadcast` together
with the channels it wrote to, in the order of the writes, or an exception that left a
handler with nothing to catch it. -/
inductive Out where
  | send (ws : Chan) (m : ServerMsg)
  | broadcast (m : ServerMsg) (written : List Chan)
  | uncaught
  deriving DecidableEq

/-- The messages one trace entry writes to channel `c`. -/
def Out.msgsTo (c : Chan) : Out → List ServerMsg
  | .send ws m => if ws = c then [m] else []
  | .broadcast m written => List.replicate (written.count c) m
  | .uncaught => []

/-- The messages a trace writes to channel `c`, in order. -/
def received (c : Chan) (trace : List Out) : List ServerMsg :=
  trace.flatMap (Out.msgsTo c)

/-- The message of a `broadcast` call, `none` for a direct send. -/
def Out.broadcastMsg : Out → Option ServerMsg
  | .send _ _ => none
  | .broadcast m _ => some m
  | .uncaught => none

/-- The messages of the `broadcast` calls of a trace, in order. -/
def broadcasts (trace : List Out) : List ServerMsg :=
  trace.filterMap Out.broadcastMsg

/-- The `players` map: entries in insertion order. -/
abbrev Players := List (Val × Player)

/-- The keys of the map, in insertion order. -/
def Players.keys (m : Players) : List Val := m.map Prod.fst

/-- `players.values()`. -/
def Players.values (m : Players) : List Player := m.map Prod.snd

/-- `players.get(k)`. -/
def Players.get : Players → Val → Option Player
  | [], _ => none
  | (k', v) :: t, k => if k' = k then some v else Players.get t k

/-- `players.has(k)`. -/
def Players.has (m : Players) (k : Val) : Bool := (Players.get m k).isSome

/-- `players.set(k, v)`: an existing key keeps its place, a new key goes last. -/
def Players.set : Players → Val → Player → Players
  | [], k, v => [(k, v)]
  | (k', v') :: t, k, v => if k' = k then (k', v) :: t else (k', v') :: Players.set t k v

/-- `players.delete(k)`. -/
def Players.delete (m : Players) (k : Val) : Players :=
  m.filter (fun e => decide (e.1 ≠ k))

/-- The projection `p => ({ id: p.id, name: p.name, ..., weapon: p.weapon })`. -/
def publicView (p : Player) : PublicView :=
  { id := p.id, name := p.name, x := p.x, y := p.y, z := p.z, yaw := p.yaw,
    pitch := p.pitch, hp := p.hp, score := p.score, weapon := p.weapon }

/-- The channels `broadcast(message, excludeId)` writes to: the default parameter turns an
`undefined` argument into `null`, then every entry whose key is `!== excludeId` and whose
socket is `OPEN` is written, in map order. -/
def recipients (players : Players) (isOpen : Chan → Bool) (excludeId : Val) : List Chan :=
  let excludeId := if excludeId = Val.undefined then Val.null else excludeId
  (players.filter (fun e => decide (e.1 ≠ excludeId) && isOpen e.2.ws)).map (fun e => e.2.ws)

/-- `function broadcast(message, excludeId = null)`; a call without second argument is
`broadcast players isOpen message Val.undefined`. -/
def broadcast (players : Players) (isOpen : Chan → Bool) (message : ServerMsg)
    (excludeId : Val) : Out :=
  Out.broadcast message (recipients players isOpen excludeId)

/-- The record stored by `case 'join'`. -/
def joinRecord (data : Data) (now : Int) (ws : Chan) : Player :=
  { id := data.id
    name := data.name
    x := Val.or data.x (.num 0)
    y := Val.or data.y (.num eyeHeight)
    z := Val.or data.z (.num 0)
    yaw := Val.or data.yaw (.num 0)
    pitch := Val.or data.pitch (.num 0)
    hp := Val.or data.hp (.num 100)
    score := Val.or data.score (.num 0)
    weapon := Val.or data.weapon (.num 0)
    lastUpdate := now
    ws := ws }

/-- The `player` object of the `player_joined` broadcast, built from `data` again. -/
def joinedView (playerId : Val) (data : Data) : PublicView :=
  { id := playerId
    name := data.name
    x := Val.or data.x (.num 0)
    y := Val.or data.y (.num eyeHeight)
    z := Val.or data.z (.num 0)
    yaw := Val.or data.yaw (.num 0)
    pitch := Val.or data.pitch (.num 0)
    hp := Val.or data.hp (.num 100)
    score := Val.or data.score (.num 0)
    weapon := Val.or data.weapon (.num 0) }

/-- The assignments `player.x = data.x; ...; player.lastUpdate = Date.now()`. -/
def applyUpdate (player : Player) (data : Data) (now : Int) : Player :=
  { player with
    x := data.x, y := data.y, z := data.z, yaw := data.yaw, pitch := data.pitch,
    hp := data.hp, score := data.score, weapon := data.weapon, lastUpdate := now }

/-- The `player` object of the `player_update` broadcast. -/
def updateView (playerId : Val) (data : Data) : UpdateView :=
  { id := playerId, x := data.x, y := data.y, z := data.z, yaw := data.yaw,
    pitch := data.pitch, hp := data.hp, score := data.score, weapon := data.weapon }

/-- `ws.on('message', ...)` of the connection `ws` whose closure variable is `playerId`.
Returns the new map, the new `playerId` and the sends performed.  A `JSON.parse` failure
and the `TypeError` of `null.type` both end in the `catch`, which only logs; so does the
`TypeError` of the `console.log` of the join case when `data.name` or `playerId` does not
convert to a string, after `playerId` and the map have been written.  In the update
case `players.get(playerId)` follows a successful `players.has(playerId)`, so the `none`
branch of the match is never taken. -/
def onMessage (ws : Chan) (isOpen : Chan → Bool) (now : Int) (message : Inbound)
    (players : Players) (playerId : Val) : Players × Val × List Out :=
  match message with
  | .malformed => (players, playerId, [])
  | .jsonNull => (players, playerId, [])
  | .value data =>
    if data.type = Val.str "join" then
      let playerId := data.id
      let players := Players.set players playerId (joinRecord data now ws)
      if data.name.printable && playerId.printable then
        let currentPlayers :=
          ((Players.values players).filter (fun p => decide (p.id ≠ playerId))).map publicView
        (players, playerId,
          [Out.send ws (ServerMsg.init currentPlayers),
           broadcast players isOpen (ServerMsg.player_joined (joinedView playerId data))
             playerId])
      else (players, playerId, [])
    else if data.type = Val.str "update" then
      if playerId.truthy && Players.has players playerId then
        match Players.get players playerId with
        | some player =>
          let players := Players.set players playerId (applyUpdate player data now)
          (players, playerId,
            [broadcast players isOpen (ServerMsg.player_update (updateView playerId data))
              playerId])
        | none => (players, playerId, [])
      else (players, playerId, [])
    else (players, playerId, [])

/-- `ws.on('close', ...)` of a connection whose closure variable is `playerId`.  The
`console.log` between `players.delete` and `broadcast` converts the stored name and
`playerId` to strings; when that throws, the key is deleted and nothing is broadcast.
`players.get(playerId)` follows a successful `players.has(playerId)`, so the `none` branch
of the match is never taken. -/
def onClose (isOpen : Chan → Bool) (players : Players) (playerId : Val) :
    Players × List Out :=
  if playerId.truthy && Players.has players playerId then
    match Players.get players playerId with
    | some player =>
      let playerName := player.name
      let players := Players.delete players playerId
      if playerName.printable && playerId.printable then
        (players, [broadcast players isOpen (ServerMsg.player_left playerId) Val.undefined])
      else (players, [Out.uncaught])
    | none => (players, [])
  else (players, [])

/-- `ws.on('error', ...)`: logs, nothing else. -/
def onError (players : Players) : Players × List Out := (players, [])

/-- `const staleThreshold = 10000`. -/
def staleThreshold : Int := 10000

/-- The test `now - player.lastUpdate > staleThreshold`. -/
def isStale (now : Int) (player : Player) : Bool :=
  decide (now - player.lastUpdate > staleThreshold)

/-- The body of `players.forEach((player, id) => ...)` in the sweep, run over the entries
still to visit; `players` is the map as the visits so far have left it.  A visit deletes
nothing but the entry visited, so the entries still to visit are those the map had when the
tick began.  The `console.log` that ends the body converts `player.name` to a string; when
that throws, `forEach` is left and the later entries are not visited. -/
def sweepLoop (now : Int) (isOpen : Chan → Bool) :
    List (Val × Player) → Players → Players × List Out
  | [], players => (players, [])
  | (id, player) :: rest, players =>
    if isStale now player then
      let players := Players.delete players id
      let out := broadcast players isOpen (ServerMsg.player_left id) Val.undefined
      if player.name.printable then
        let r := sweepLoop now isOpen rest players
        (r.1, out :: r.2)
      else (players, [out, Out.uncaught])
    else sweepLoop now isOpen rest players

/-- The `setInterval` callback: one sweep tick at time `now`. -/
def sweep (now : Int) (isOpen : Chan → Bool) (players : Players) : Players × List Out :=
  sweepLoop now isOpen players players

/-- The whole server: the map, each connection's `playerId` variable (`null` until that
connection handles a join) and which sockets have `readyState === OPEN`. -/
structure Server where
  players : Players
  playerId : Chan → Val
  isOpen : Chan → Bool

/-- What can happen to the server. -/
inductive Event where
  | message (ws : Chan) (now : Int) (message : Inbound)
  | close (ws : Chan)
  | error (ws : Chan)
  | tick (now : Int)
  | notOpen (ws : Chan)

/-- The server before any connection. -/
def Server.init : Server :=
  { players := [], playerId := fun _ => Val.null, isOpen := fun _ => true }

/-- One event.  A socket is no longer `OPEN` when its `close` event fires; `notOpen` is a
socket leaving `OPEN` with no handler run yet. -/
def step (s : Server) : Event → Server × List Out
  | .message ws now message =>
    let r := onMessage ws s.isOpen now message s.players (s.playerId ws)
    ({ s with players := r.1, playerId := fun c => if c = ws then r.2.1 else s.playerId c },
      r.2.2)
  | .close ws =>
    let isOpen := fun c => if c = ws then false else s.isOpen c
    let r := onClose isOpen s.players (s.playerId ws)
    ({ s with players := r.1, isOpen := isOpen }, r.2)
  | .error _ =>
    let r := onError s.players
    ({ s with players := r.1 }, r.2)
  | .tick now =>
    let r := sweep now s.isOpen s.players
    ({ s with players := r.1 }, r.2)
  | .notOpen ws =>
    ({ s with isOpen := fun c => if c = ws then false else s.isOpen c }, [])

/-- A sequence of events, with the whole output trace. -/
def run (s : Server) : List Event → Server × List Out
  | [] => (s, [])
  | e :: es =>
    let r := step s e
    let r' := run r.1 es
    (r'.1, r.2 ++ r'.2)

/-- The states the server can be in. -/
inductive Reachable : Server → Prop where
  | init : Reachable Server.init
  | step (s : Server) (e : Event) : Reachable s → Reachable (step s e).1

/-- A `join` message carrying only `id` and `name`. -/
def joinMsg (id name : Val) : Data :=
  { type := .str "join", id := id, name := name, x := .undefined, y := .undefined,
    z := .undefined, yaw := .undefined, pitch := .undefined, hp := .undefined,
    score := .undefined, weapon := .undefined }

/-- An `update` message with numeric fields. -/
def updateMsg (x y z yaw pitch hp score weapon : ℚ) : Data :=
  { type := .str "update", id := .undefined, name := .undefined, x := .num x, y := .num y,
    z := .num z, yaw := .num yaw, pitch := .num pitch, hp := .num hp, score := .num score,
    weapon := .num weapon }

/-- The public view of a player that joined with only `id` and `name`. -/
def defaultView (id name : Val) : PublicView :=
  { id := id, name := name, x := .num 0, y := .num eyeHeight, z := .num 0, yaw := .num 0,
    pitch := .num 0, hp := .num 100, score := .num 0, weapon := .num 0 }

/-- Whether a server message is an `init`. -/
def ServerMsg.isInit : ServerMsg → Bool
  | .init _ => true
  | _ => false

/-- Connection 1 has joined as "a" and then, on the same socket, as "b". -/
def rejoinState : Server :=
  (run Server.init
    [.message 1 0 (.value (joinMsg (.str "a") (.str "A"))),
     .message 1 5 (.value (joinMsg (.str "b") (.str "B")))]).1

/-- Connection 1 has joined as "a". -/
def joinedState : Server :=
  (run Server.init [.message 1 0 (.value (joinMsg (.str "a") (.str "A")))]).1

/-- Connection 1 has joined with the numeric id `0`, connection 2 as "b". -/
def zeroIdState : Server :=
  (run Server.init
    [.message 1 0 (.value (joinMsg (.num 0) (.str "Zero"))),
     .message 2 1 (.value (joinMsg (.str "b") (.str "B")))]).1

/-- Player "p1" (Alice) joins on connection 1 with `y: 0` and `hp: 0` given in the message. -/
def joinZeroVitals : Data :=
  { joinMsg (.str "p1") (.str "Alice") with y := .num 0, hp := .num 0 }

/-- The keys of the entries of `l` that the sweep finds stale at time `now`. -/
def staleKeys (now : Int) (l : List (Val × Player)) : List Val :=
  (l.filter (fun e => isStale now e.2)).map Prod.fst

/-- Position, orientation and vitals. -/
structure Vitals where
  x : Val
  y : Val
  z : Val
  yaw : Val
  pitch : Val
  hp : Val
  score : Val
  weapon : Val
  deriving DecidableEq

/-- The fields of a record that describe position, orientation and vitals. -/
def Player.vitals (p : Player) : Vitals :=
  { x := p.x, y := p.y, z := p.z, yaw := p.yaw, pitch := p.pitch, hp := p.hp,
    score := p.score, weapon := p.weapon }

/-- A record with default fields, last active at `t`, on socket `ws`. -/
def mkPlayer (id : Val) (t : Int) (ws : Chan) : Player :=
  joinRecord (joinMsg id (.str "n")) t ws

/-- Three players on sockets 1, 2, 3, last active at times 0, 1 and 5000. -/
def sweepPlayers : Players :=
  [(.str "a", mkPlayer (.str "a") 0 1), (.str "b", mkPlayer (.str "b") 1 2),
   (.str "c", mkPlayer (.str "c") 5000 3)]

/-- Connection 1 has joined as "a" at time 0, connection 2 as "b" at time 1. -/
def twoJoinedState : Server :=
  (run Server.init
    [.message 1 0 (.value (joinMsg (.str "a") (.str "A"))),
     .message 2 1 (.value (joinMsg (.str "b") (.str "B")))]).1

/-- Connection 1 has joined as "a", then connection 2 has joined with the same id "a". -/
def collisionState : Server :=
  (run Server.init
    [.message 1 0 (.value (joinMsg (.str "a") (.str "A"))),
     .message 2 1 (.value (joinMsg (.str "a") (.str "A2")))]).1

/-! ## Reachability and the map operations -/

/-- Whether an event is a join message handled by connection `ws`. -/
def Event.isJoinOn (ws : Chan) : Event → Bool
  | .message ws' _ (.value data) => decide (ws' = ws) && decide (data.type = Val.str "join")
  | _ => false

/-- Whether the key `i` was deleted between two states of the map: 1 when it was
present before and is absent after, 0 otherwise. -/
def deleted (i : Val) (before after : Players) : Nat :=
  if Players.has before i && !Players.has after i then 1 else 0

/-- The number of times the key `i` is deleted along a sequence of events from `s`. -/
def deletions (i : Val) (s : Server) : List Event → Nat
  | [] => 0
  | e :: es => deleted i s.players (step s e).1.players + deletions i (step s e).1 es

/-- The events of a sequence of join messages, each given by socket, time and message. -/
def joinEvents (js : List (Chan × Int × Data)) : List Event :=
  js.map (fun j => Event.message j.1 j.2.1 (.value j.2.2))

/-- The last message of the sequence whose `id` is `i`. -/
def lastJoin (i : Val) : List (Chan × Int × Data) → Option (Chan × Int × Data)
  | [] => none
  | j :: js =>
    match lastJoin i js with
    | some j' => some j'
    | none => if j.2.2.id = i then some j else none

/-- Connection 1 has joined with the id `null`, connection 2 as "b". -/
def nullIdState : Server :=
  (run Server.init
    [.message 1 0 (.value (joinMsg .null (.str "N"))),
     .message 2 1 (.value (joinMsg (.str "b") (.str "B")))]).1

/-- Whether an event is a join message received on a socket that the map holds under a
key other than the id of the message. -/
def Event.rejoins (players : Players) : Event → Bool
  | .message ws _ (.value data) =>
    decide (data.type = Val.str "join") &&
      players.any (fun e => decide (e.2.ws = ws) && decide (e.1 ≠ data.id))
  | _ => false

/-- Whether no event of the sequence, run from `s`, is such a join. -/
def noRejoin (s : Server) : List Event → Bool
  | [] => true
  | e :: es => !Event.rejoins s.players e && noRejoin (step s e).1 es

/-- The value `JSON.parse` makes of `{"toString": 0}`: an object whose conversion to a
string throws a `TypeError`. -/
def unprintable : Val := Val.ref 0 false

/-- The keys the sweep deletes at time `now` when it visits the entries `l` in order: the
keys of the stale entries, up to and including the first one whose name does not convert
to a string. -/
def evictedKeys (now : Int) : List (Val × Player) → List Val
  | [] => []
  | (id, player) :: rest =>
    if isStale now player then
      if player.name.printable then id :: evictedKeys now rest else [id]
    else evictedKeys now rest

/-- Socket 1 has joined as "a" with the name `{"toString": 0}` at time 0, socket 2 as "b"
at time 1, socket 3 as "c" at time 2. -/
def unprintableFirstState : Server :=
  (run Server.init
    [.message 1 0 (.value (joinMsg (.str "a") unprintable)),
     .message 2 1 (.value (joinMsg (.str "b") (.str "B"))),
     .message 3 2 (.value (joinMsg (.str "c") (.str "C")))]).1

/-- Socket 1 has joined as "a", then socket 2 as "b" with the name `{"toString": 0}`. -/
def unprintableSecondState : Server :=
  (run Server.init
    [.message 1 0 (.value (joinMsg (.str "a") (.str "A"))),
     .message 2 1 (.value (joinMsg (.str "b") unprintable))]).1

/-- Socket 2 has joined as "b", then socket 1 has joined with a message that has no `id`. -/
def noIdState : Server :=
  (run Server.init
    [.message 2 0 (.value (joinMsg (.str "b") (.str "B"))),
     .message 1 1 (.value (joinMsg .undefined (.str "A")))]).1

theorem eyeHeight_eq : eyeHeight = 17 / 10 := by
  have h := (Rat.num_div_den eyeHeight).symm
  simpa [eyeHeight] using h

theorem reachable_run (s : Server) (es : List Event) (h : Reachable s) :
    Reachable (run s es).1 := by
  induction es generalizing s with
  | nil => exact h
  | cons e es ih => exact ih _ (Reachable.step s e h)

theorem Players.get_set (m : Players) (k i : Val) (v : Player) :
    Players.get (Players.set m k v) i = if k = i then some v else Players.get m i := by
  induction m with
  | nil => simp [Players.set, Players.get]
  | cons hd t ih =>
    obtain ⟨k', v'⟩ := hd
    by_cases hk : k' = k
    · subst hk
      by_cases hi : k' = i <;> simp [Players.set, Players.get, hi]
    · by_cases hi : k' = i
      · subst hi
        have hk' : ¬ k = k' := fun e => hk e.symm
        simp [Players.set, Players.get, hk, hk']
      · simp [Players.set, Players.get, hk, hi, ih]

theorem Players.get_filter_key (m : Players) (p : Val → Bool) (i : Val) :
    Players.get (m.filter (fun e => p e.1)) i = if p i then Players.get m i else none := by
  induction m with
  | nil => simp [Players.get]
  | cons hd t ih =>
    obtain ⟨k', v'⟩ := hd
    by_cases hp : p k' = true
    · by_cases hi : k' = i
      · subst hi
        simp [List.filter_cons, hp, Players.get]
      · simp [List.filter_cons, hp, Players.get, hi, ih]
    · by_cases hi : k' = i
      · subst hi
        simp [List.filter_cons, hp, Players.get, ih]
      · simp [List.filter_cons, hp, Players.get, hi, ih]

theorem Players.get_delete (m : Players) (k i : Val) :
    Players.get (Players.delete m k) i = if i = k then none else Players.get m i := by
  have h := Players.get_filter_key m (fun x => decide (x ≠ k)) i
  unfold Players.delete
  rw [h]
  by_cases hi : i = k <;> simp [hi]

theorem Players.mem_of_get (m : Players) (i : Val) (p : Player)
    (h : Players.get m i = some p) : (i, p) ∈ m := by
  induction m with
  | nil => simp [Players.get] at h
  | cons hd t ih =>
    obtain ⟨k', v'⟩ := hd
    by_cases hi : k' = i
    · subst hi
      simp [Players.get] at h
      simp [h]
    · simp [Players.get, hi] at h
      exact List.mem_cons_of_mem _ (ih h)

theorem Players.get_none_of_not_mem_keys (m : Players) (i : Val)
    (h : i ∉ Players.keys m) : Players.get m i = none := by
  induction m with
  | nil => rfl
  | cons hd t ih =>
    obtain ⟨k', v'⟩ := hd
    simp [Players.keys] at h
    have hi : ¬ k' = i := fun e => h.1 e.symm
    simp only [Players.get, hi, if_false]
    apply ih
    simpa [Players.keys] using h.2

theorem Players.get_of_mem (m : Players) (i : Val) (p : Player)
    (hnd : (Players.keys m).Nodup) (h : (i, p) ∈ m) : Players.get m i = some p := by
  induction m with
  | nil => simp at h
  | cons hd t ih =>
    obtain ⟨k', v'⟩ := hd
    simp only [Players.keys, List.map_cons, List.nodup_cons] at hnd
    rcases List.mem_cons.mp h with h | h
    · cases h
      simp [Players.get]
    · have hne : ¬ k' = i := by
        intro e
        subst e
        exact hnd.1 (List.mem_map_of_mem Prod.fst h)
      simp only [Players.get, hne, if_false]
      exact ih hnd.2 h

theorem Players.eq_of_key_eq (m : Players) (hnd : (Players.keys m).Nodup)
    (a b : Val × Player) (ha : a ∈ m) (hb : b ∈ m) (h : a.1 = b.1) : a = b :=
  List.inj_on_of_nodup_map hnd ha hb h

/-! ## The message handler, case by case -/

theorem onMessage_join (ws : Chan) (isOpen : Chan → Bool) (now : Int) (data : Data)
    (players : Players) (playerId : Val) (h : data.type = Val.str "join")
    (hn : data.name.printable = true) (hi : data.id.printable = true) :
    onMessage ws isOpen now (.value data) players playerId =
      (Players.set players data.id (joinRecord data now ws), data.id,
        [Out.send ws (ServerMsg.init
          (((Players.values (Players.set players data.id (joinRecord data now ws))).filter
            (fun p => decide (p.id ≠ data.id))).map publicView)),
         broadcast (Players.set players data.id (joinRecord data now ws)) isOpen
           (ServerMsg.player_joined (joinedView data.id data)) data.id]) := by
  simp [onMessage, h, hn, hi]

theorem onMessage_join_thrown (ws : Chan) (isOpen : Chan → Bool) (now : Int) (data : Data)
    (players : Players) (playerId : Val) (h : data.type = Val.str "join")
    (hn : data.name.printable = false ∨ data.id.printable = false) :
    onMessage ws isOpen now (.value data) players playerId =
      (Players.set players data.id (joinRecord data now ws), data.id, []) := by
  rcases hn with hn | hn <;> simp [onMessage, h, hn]

theorem onMessage_join_players (ws : Chan) (isOpen : Chan → Bool) (now : Int) (data : Data)
    (players : Players) (playerId : Val) (h : data.type = Val.str "join") :
    (onMessage ws isOpen now (.value data) players playerId).1 =
      Players.set players data.id (joinRecord data now ws) := by
  cases hn : data.name.printable
  · rw [onMessage_join_thrown _ _ _ _ _ _ h (Or.inl hn)]
  · cases hi : data.id.printable
    · rw [onMessage_join_thrown _ _ _ _ _ _ h (Or.inr hi)]
    · rw [onMessage_join _ _ _ _ _ _ h hn hi]

theorem onMessage_join_playerId (ws : Chan) (isOpen : Chan → Bool) (now : Int) (data : Data)
    (players : Players) (playerId : Val) (h : data.type = Val.str "join") :
    (onMessage ws isOpen now (.value data) players playerId).2.1 = data.id := by
  cases hn : data.name.printable
  · rw [onMessage_join_thrown _ _ _ _ _ _ h (Or.inl hn)]
  · cases hi : data.id.printable
    · rw [onMessage_join_thrown _ _ _ _ _ _ h (Or.inr hi)]
    · rw [onMessage_join _ _ _ _ _ _ h hn hi]

theorem onMessage_update (ws : Chan) (isOpen : Chan → Bool) (now : Int) (data : Data)
    (players : Players) (playerId : Val) (player : Player)
    (h : data.type = Val.str "update") (ht : playerId.truthy = true)
    (hg : Players.get players playerId = some player) :
    onMessage ws isOpen now (.value data) players playerId =
      (Players.set players playerId (applyUpdate player data now), playerId,
        [broadcast (Players.set players playerId (applyUpdate player data now)) isOpen
          (ServerMsg.player_update (updateView playerId data)) playerId]) := by
  simp [onMessage, h, ht, hg, Players.has]

theorem onMessage_update_ignored (ws : Chan) (isOpen : Chan → Bool) (now : Int) (data : Data)
    (players : Players) (playerId : Val) (h : data.type = Val.str "update")
    (hn : playerId.truthy = false ∨ Players.get players playerId = none) :
    onMessage ws isOpen now (.value data) players playerId = (players, playerId, []) := by
  rcases hn with hn | hn
  · simp [onMessage, h, hn]
  · simp [onMessage, h, hn, Players.has]

theorem onClose_registered (isOpen : Chan → Bool) (players : Players) (playerId : Val)
    (player : Player) (ht : playerId.truthy = true)
    (hg : Players.get players playerId = some player)
    (hn : player.name.printable = true) (hi : playerId.printable = true) :
    onClose isOpen players playerId =
      (Players.delete players playerId,
        [broadcast (Players.delete players playerId) isOpen (ServerMsg.player_left playerId)
          Val.undefined]) := by
  simp [onClose, ht, hg, hn, hi, Players.has]

theorem onClose_thrown (isOpen : Chan → Bool) (players : Players) (playerId : Val)
    (player : Player) (ht : playerId.truthy = true)
    (hg : Players.get players playerId = some player)
    (hn : player.name.printable = false ∨ playerId.printable = false) :
    onClose isOpen players playerId = (Players.delete players playerId, [Out.uncaught]) := by
  rcases hn with hn | hn <;> simp [onClose, ht, hg, hn, Players.has]

theorem onClose_ignored (isOpen : Chan → Bool) (players : Players) (playerId : Val)
    (hn : playerId.truthy = false ∨ Players.has players playerId = false) :
    onClose isOpen players playerId = (players, []) := by
  rcases hn with hn | hn <;> simp [onClose, hn]

theorem onClose_players (isOpen : Chan → Bool) (players : Players) (playerId : Val) :
    (onClose isOpen players playerId).1 = players ∨
      (onClose isOpen players playerId).1 = Players.delete players playerId := by
  cases ht : playerId.truthy
  · left
    rw [onClose_ignored _ _ _ (Or.inl ht)]
  · cases hg : Players.get players playerId with
    | none =>
      left
      rw [onClose_ignored _ _ _ (Or.inr (by simp [Players.has, hg]))]
    | some player =>
      right
      cases hn : player.name.printable
      · rw [onClose_thrown _ _ _ player ht hg (Or.inl hn)]
      · cases hi : playerId.printable
        · rw [onClose_thrown _ _ _ player ht hg (Or.inr hi)]
        · rw [onClose_registered _ _ _ player ht hg hn hi]

/-! ## Keys stay distinct -/

theorem Players.keys_set (m : Players) (k : Val) (v : Player) :
    Players.keys (Players.set m k v) =
      if k ∈ Players.keys m then Players.keys m else Players.keys m ++ [k] := by
  induction m with
  | nil => simp [Players.set, Players.keys]
  | cons hd t ih =>
    obtain ⟨k', v'⟩ := hd
    by_cases hk : k' = k
    · subst hk
      simp [Players.set, Players.keys]
    · have hk' : ¬ k = k' := fun e => hk e.symm
      simp only [Players.keys] at ih
      by_cases hm : k ∈ List.map Prod.fst t
      · simp [Players.set, Players.keys, hk, hk', hm, ih]
      · simp [Players.set, Players.keys, hk, hk', hm, ih]

theorem Players.set_keys_nodup (m : Players) (k : Val) (v : Player)
    (h : (Players.keys m).Nodup) : (Players.keys (Players.set m k v)).Nodup := by
  rw [Players.keys_set]
  by_cases hm : k ∈ Players.keys m
  · simpa [hm] using h
  · simp only [hm, if_false]
    exact List.Nodup.append h (List.nodup_singleton k) (by simpa using hm)

theorem Players.filter_keys_nodup (m : Players) (p : Val × Player → Bool)
    (h : (Players.keys m).Nodup) : (Players.keys (m.filter p)).Nodup :=
  List.Nodup.sublist (List.Sublist.map Prod.fst (List.filter_sublist m)) h

theorem onMessage_keys_nodup (ws : Chan) (isOpen : Chan → Bool) (now : Int) (m : Inbound)
    (players : Players) (playerId : Val) (h : (Players.keys players).Nodup) :
    (Players.keys (onMessage ws isOpen now m players playerId).1).Nodup := by
  cases m with
  | malformed => exact h
  | jsonNull => exact h
  | value data =>
    by_cases hj : data.type = Val.str "join"
    · rw [onMessage_join_players _ _ _ _ _ _ hj]
      exact Players.set_keys_nodup _ _ _ h
    · by_cases hu : data.type = Val.str "update"
      · cases ht : playerId.truthy
        · rw [onMessage_update_ignored _ _ _ _ _ _ hu (Or.inl ht)]
          exact h
        · cases hg : Players.get players playerId with
          | none =>
            rw [onMessage_update_ignored _ _ _ _ _ _ hu (Or.inr hg)]
            exact h
          | some player =>
            rw [onMessage_update _ _ _ _ _ _ player hu ht hg]
            exact Players.set_keys_nodup _ _ _ h
      · simpa [onMessage, hj, hu] using h

/-! ## The join handler -/

/-- C1: on a socket that already joined as "a", a second join as "b" is broadcast with
"b" excluded, so the entry still stored under "a" — whose socket is the joiner's own —
is written: the joiner receives the `player_joined` about itself.  A first join whose
message has no `id` has the same outcome: `broadcast` gets `undefined`, its default
parameter makes that `null`, and the joiner's entry, keyed `undefined`, is not excluded. -/
theorem rejoin_player_joined_written_to_joiner :
    Reachable joinedState ∧
    (step joinedState (.message 1 5 (.value (joinMsg (.str "b") (.str "B"))))).2 =
      [Out.send 1 (.init [defaultView (.str "a") (.str "A")]),
       Out.broadcast (.player_joined (defaultView (.str "b") (.str "B"))) [1]] ∧
    received 1 (step joinedState (.message 1 5 (.value (joinMsg (.str "b") (.str "B"))))).2 =
      [.init [defaultView (.str "a") (.str "A")],
       .player_joined (defaultView (.str "b") (.str "B"))] ∧
    received 1 (step Server.init (.message 1 0 (.value (joinMsg .undefined (.str "A"))))).2 =
      [.init [], .player_joined (defaultView .undefined (.str "A"))] :=
  ⟨reachable_run _ _ Reachable.init, by decide, by decide, by decide⟩

/-- C2: connection 1 is registered under "a" and under "b" (it joined twice); its update
is applied to "b" and broadcast with "b" excluded, so the entry under "a", which holds the
sender's own socket, is written: the sender receives its own `player_update`. -/
theorem update_written_to_sender_after_rejoin :
    Reachable rejoinState ∧
    (step rejoinState (.message 1 9 (.value (updateMsg 5 2 2 1 0 80 10 1)))).2 =
      [Out.broadcast
        (.player_update { id := .str "b", x := .num 5, y := .num 2, z := .num 2, yaw := .num 1,
                          pitch := .num 0, hp := .num 80, score := .num 10, weapon := .num 1 })
        [1]] ∧
    received 1 (step rejoinState (.message 1 9 (.value (updateMsg 5 2 2 1 0 80 10 1)))).2 =
      [.player_update { id := .str "b", x := .num 5, y := .num 2, z := .num 2, yaw := .num 1,
                        pitch := .num 0, hp := .num 80, score := .num 10, weapon := .num 1 }] :=
  ⟨reachable_run _ _ Reachable.init, by decide, by decide⟩

/-- C5: a join with only `id` and `name` is stored with the defaults, but a join that
specifies `y: 0` and `hp: 0` is stored with `y` 1.7 and `hp` 100 as well: the `||` of the
handler takes the default for every falsy value, not only for an absent one. -/
theorem join_zero_y_hp_stored_as_defaults :
    Players.get (step Server.init
        (.message 1 0 (.value (joinMsg (.str "p1") (.str "Alice"))))).1.players (.str "p1") =
      some { id := .str "p1", name := .str "Alice", x := .num 0, y := .num eyeHeight,
             z := .num 0, yaw := .num 0, pitch := .num 0, hp := .num 100, score := .num 0,
             weapon := .num 0, lastUpdate := 0, ws := 1 } ∧
    joinZeroVitals.y = .num 0 ∧ joinZeroVitals.hp = .num 0 ∧
    Players.get (step Server.init (.message 1 0 (.value joinZeroVitals))).1.players (.str "p1") =
      some { id := .str "p1", name := .str "Alice", x := .num 0, y := .num eyeHeight,
             z := .num 0, yaw := .num 0, pitch := .num 0, hp := .num 100, score := .num 0,
             weapon := .num 0, lastUpdate := 0, ws := 1 } := by
  decide

/-- C6: connection 1 joined with the id `0` and is registered under it; its close event
removes nothing and broadcasts nothing, because `playerId && ...` is false for `0`.  And
when connection 1 joined as "a" and then as "b", its close event removes only "b": the
record under "a" stays, with the closed socket as its output channel. -/
theorem close_after_join_with_zero_id_removes_nothing :
    Reachable zeroIdState ∧
    zeroIdState.playerId 1 = .num 0 ∧
    Players.has zeroIdState.players (.num 0) = true ∧
    (step zeroIdState (.close 1)).1.players = zeroIdState.players ∧
    (step zeroIdState (.close 1)).2 = [] ∧
    Reachable rejoinState ∧
    (step rejoinState (.close 1)).1.players =
      [(.str "a", joinRecord (joinMsg (.str "a") (.str "A")) 0 1)] ∧
    (step rejoinState (.close 1)).2 = [Out.broadcast (.player_left (.str "b")) []] :=
  ⟨reachable_run _ _ Reachable.init, by decide, by decide, by decide, by decide,
   reachable_run _ _ Reachable.init, by decide, by decide⟩

/-- C9: connection 1 joined with the id `0` and is registered under it; its update is
ignored (map unchanged, nothing sent), because `playerId && ...` is false for `0`. -/
theorem update_after_join_with_zero_id_ignored :
    Reachable zeroIdState ∧
    zeroIdState.playerId 1 = .num 0 ∧
    Players.has zeroIdState.players (.num 0) = true ∧
    (step zeroIdState (.message 1 9 (.value (updateMsg 5 2 2 1 0 80 10 1)))).1.players =
      zeroIdState.players ∧
    (step zeroIdState (.message 1 9 (.value (updateMsg 5 2 2 1 0 80 10 1)))).2 = [] :=
  ⟨reachable_run _ _ Reachable.init, by decide, by decide, by decide, by decide⟩

/-- C10: a message that does not parse, the JSON value `null`, and a parsed value whose
`type` is neither 'join' nor 'update' (an absent `type` reads as `undefined`) leave the map
and every connection's `playerId` as they were and send nothing. -/
theorem unhandled_message_changes_nothing (s : Server) (ws : Chan) (now : Int)
    (message : Inbound)
    (h : ∀ data, message = .value data →
      data.type ≠ Val.str "join" ∧ data.type ≠ Val.str "update") :
    (step s (.message ws now message)).1.players = s.players ∧
    (∀ c, (step s (.message ws now message)).1.playerId c = s.playerId c) ∧
    (step s (.message ws now message)).1.isOpen = s.isOpen ∧
    (step s (.message ws now message)).2 = [] := by
  have key : onMessage ws s.isOpen now message s.players (s.playerId ws) =
      (s.players, s.playerId ws, []) := by
    cases message with
    | malformed => rfl
    | jsonNull => rfl
    | value data =>
      obtain ⟨h1, h2⟩ := h data rfl
      simp [onMessage, h1, h2]
  refine ⟨?_, ?_, rfl, ?_⟩
  · simp [step, key]
  · intro c
    by_cases hc : c = ws
    · simp [step, key, hc]
    · simp [step, hc]
  · simp [step, key]

/-- C10 at a message of type 'ping' received on a socket that has not joined. -/
theorem unhandled_message_changes_nothing_witness :
    (∀ data, Inbound.value ({ joinMsg (.str "b") (.str "B") with type := .str "ping" }) =
        .value data → data.type ≠ Val.str "join" ∧ data.type ≠ Val.str "update") ∧
    (step joinedState (.message 2 7
      (.value ({ joinMsg (.str "b") (.str "B") with type := .str "ping" })))).1.players =
        joinedState.players ∧
    (step joinedState (.message 2 7
      (.value ({ joinMsg (.str "b") (.str "B") with type := .str "ping" })))).2 = [] :=
  have h : ∀ data, Inbound.value ({ joinMsg (.str "b") (.str "B") with type := .str "ping" }) =
      .value data → data.type ≠ Val.str "join" ∧ data.type ≠ Val.str "update" := by
    intro data hd
    cases hd
    decide
  ⟨h, (unhandled_message_changes_nothing joinedState 2 7 _ h).1,
    (unhandled_message_changes_nothing joinedState 2 7 _ h).2.2.2⟩

/-- C3: with "a" registered, socket 2 sends a join with id "b" whose `name` is the object
`{"toString": 0}`.  The record is stored and `playerId` is set, then the `console.log` of
the join case throws and the `catch` takes over: no `init` is sent to socket 2, and nothing
else is sent. -/
theorem join_with_unprintable_name_sends_no_init :
    Reachable joinedState ∧
    (step joinedState (.message 2 5 (.value (joinMsg (.str "b") unprintable)))).2 = [] ∧
    received 2 (step joinedState (.message 2 5 (.value (joinMsg (.str "b") unprintable)))).2
      = [] ∧
    Players.keys
      (step joinedState (.message 2 5 (.value (joinMsg (.str "b") unprintable)))).1.players =
        [.str "a", .str "b"] ∧
    (step joinedState (.message 2 5 (.value (joinMsg (.str "b") unprintable)))).1.playerId 2 =
      .str "b" :=
  ⟨reachable_run _ _ Reachable.init, by decide, by decide, by decide, by decide⟩

/-- A join whose `name` and `id` convert to strings stores the joiner's record, and across
all sockets the trace holds exactly one `init`, written to `ws`; its list is the public
view of every record of the map after that insertion whose `id` differs from `data.id`,
so no element of the list has that id. -/
theorem printable_join_sends_one_init (ws : Chan) (isOpen : Chan → Bool) (now : Int)
    (data : Data) (players : Players) (playerId : Val) (h : data.type = Val.str "join")
    (hn : data.name.printable = true) (hi : data.id.printable = true) :
    (onMessage ws isOpen now (.value data) players playerId).1 =
      Players.set players data.id (joinRecord data now ws) ∧
    (∀ c, (received c (onMessage ws isOpen now (.value data) players playerId).2.2).filter
        ServerMsg.isInit =
      if c = ws then
        [ServerMsg.init
          (((Players.values (Players.set players data.id (joinRecord data now ws))).filter
            (fun p => decide (p.id ≠ data.id))).map publicView)]
      else []) ∧
    (∀ v ∈ ((Players.values (Players.set players data.id (joinRecord data now ws))).filter
        (fun p => decide (p.id ≠ data.id))).map publicView, v.id ≠ data.id) := by
  refine ⟨onMessage_join_players _ _ _ _ _ _ h, ?_, ?_⟩
  · intro c
    rw [onMessage_join _ _ _ _ _ _ h hn hi]
    by_cases hc : c = ws
    · subst hc
      simp [received, Out.msgsTo, broadcast, ServerMsg.isInit, List.filter_replicate]
    · have hc' : ¬ ws = c := fun e => hc e.symm
      simp [received, Out.msgsTo, broadcast, ServerMsg.isInit, List.filter_replicate, hc, hc']
  · intro v hv
    simp only [List.mem_map, List.mem_filter, decide_eq_true_eq] at hv
    obtain ⟨p, ⟨_, hp⟩, rfl⟩ := hv
    exact hp

/-! ## The stale-player sweep -/

theorem staleKeys_cons_stale (now : Int) (id : Val) (player : Player)
    (t : List (Val × Player)) (hs : isStale now player = true) :
    staleKeys now ((id, player) :: t) = id :: staleKeys now t := by
  simp [staleKeys, List.filter, hs]

theorem staleKeys_cons_fresh (now : Int) (id : Val) (player : Player)
    (t : List (Val × Player)) (hs : isStale now player = false) :
    staleKeys now ((id, player) :: t) = staleKeys now t := by
  simp [staleKeys, List.filter, hs]

theorem evictedKeys_cons_fresh (now : Int) (id : Val) (player : Player)
    (t : List (Val × Player)) (hs : isStale now player = false) :
    evictedKeys now ((id, player) :: t) = evictedKeys now t := by
  simp [evictedKeys, hs]

theorem evictedKeys_cons_stale (now : Int) (id : Val) (player : Player)
    (t : List (Val × Player)) (hs : isStale now player = true)
    (hn : player.name.printable = true) :
    evictedKeys now ((id, player) :: t) = id :: evictedKeys now t := by
  simp [evictedKeys, hs, hn]

theorem evictedKeys_cons_thrown (now : Int) (id : Val) (player : Player)
    (t : List (Val × Player)) (hs : isStale now player = true)
    (hn : player.name.printable = false) :
    evictedKeys now ((id, player) :: t) = [id] := by
  simp [evictedKeys, hs, hn]

theorem sweepLoop_cons_fresh (now : Int) (isOpen : Chan → Bool) (id : Val) (player : Player)
    (rest : List (Val × Player)) (players : Players) (hs : isStale now player = false) :
    sweepLoop now isOpen ((id, player) :: rest) players = sweepLoop now isOpen rest players := by
  simp [sweepLoop, hs]

theorem sweepLoop_cons_stale (now : Int) (isOpen : Chan → Bool) (id : Val) (player : Player)
    (rest : List (Val × Player)) (players : Players) (hs : isStale now player = true)
    (hn : player.name.printable = true) :
    sweepLoop now isOpen ((id, player) :: rest) players =
      ((sweepLoop now isOpen rest (Players.delete players id)).1,
        broadcast (Players.delete players id) isOpen (ServerMsg.player_left id) Val.undefined ::
          (sweepLoop now isOpen rest (Players.delete players id)).2) := by
  simp [sweepLoop, hs, hn]

theorem sweepLoop_cons_thrown (now : Int) (isOpen : Chan → Bool) (id : Val) (player : Player)
    (rest : List (Val × Player)) (players : Players) (hs : isStale now player = true)
    (hn : player.name.printable = false) :
    sweepLoop now isOpen ((id, player) :: rest) players =
      (Players.delete players id,
        [broadcast (Players.delete players id) isOpen (ServerMsg.player_left id) Val.undefined,
         Out.uncaught]) := by
  simp [sweepLoop, hs, hn]

theorem sweepLoop_players (now : Int) (isOpen : Chan → Bool) (rest : List (Val × Player))
    (players : Players) :
    (sweepLoop now isOpen rest players).1 =
      players.filter (fun e => decide (e.1 ∉ evictedKeys now rest)) := by
  induction rest generalizing players with
  | nil => simp [sweepLoop, evictedKeys]
  | cons hd t ih =>
    obtain ⟨id, player⟩ := hd
    cases hs : isStale now player
    · rw [sweepLoop_cons_fresh _ _ _ _ _ _ hs, ih, evictedKeys_cons_fresh now id player t hs]
    · cases hn : player.name.printable
      · rw [sweepLoop_cons_thrown _ _ _ _ _ _ hs hn, evictedKeys_cons_thrown now id player t hs hn]
        simp only [Players.delete]
        apply List.filter_congr
        intro e _
        by_cases h1 : e.1 = id <;> simp [h1]
      · rw [sweepLoop_cons_stale _ _ _ _ _ _ hs hn, evictedKeys_cons_stale now id player t hs hn]
        simp only
        rw [ih]
        simp only [Players.delete, List.filter_filter]
        apply List.filter_congr
        intro e _
        by_cases h1 : e.1 = id <;> simp [h1]

theorem sweepLoop_broadcasts (now : Int) (isOpen : Chan → Bool) (rest : List (Val × Player))
    (players : Players) :
    broadcasts (sweepLoop now isOpen rest players).2 =
      (evictedKeys now rest).map ServerMsg.player_left := by
  induction rest generalizing players with
  | nil => simp [sweepLoop, evictedKeys, broadcasts]
  | cons hd t ih =>
    obtain ⟨id, player⟩ := hd
    cases hs : isStale now player
    · rw [sweepLoop_cons_fresh _ _ _ _ _ _ hs, ih, evictedKeys_cons_fresh now id player t hs]
    · cases hn : player.name.printable
      · rw [sweepLoop_cons_thrown _ _ _ _ _ _ hs hn, evictedKeys_cons_thrown now id player t hs hn]
        simp [broadcasts, broadcast, Out.broadcastMsg]
      · have := ih (Players.delete players id)
        simp only [broadcasts] at this
        rw [sweepLoop_cons_stale _ _ _ _ _ _ hs hn, evictedKeys_cons_stale now id player t hs hn]
        simp [broadcasts, broadcast, Out.broadcastMsg, this]

theorem evictedKeys_sublist (now : Int) (l : List (Val × Player)) :
    (evictedKeys now l).Sublist (staleKeys now l) := by
  induction l with
  | nil => simp [evictedKeys, staleKeys]
  | cons hd t ih =>
    obtain ⟨id, player⟩ := hd
    cases hs : isStale now player
    · rw [evictedKeys_cons_fresh now id player t hs, staleKeys_cons_fresh now id player t hs]
      exact ih
    · rw [staleKeys_cons_stale now id player t hs]
      cases hn : player.name.printable
      · rw [evictedKeys_cons_thrown now id player t hs hn]
        exact List.Sublist.cons₂ id (List.nil_sublist _)
      · rw [evictedKeys_cons_stale now id player t hs hn]
        exact List.Sublist.cons₂ id ih

theorem evictedKeys_eq_staleKeys (now : Int) (l : List (Val × Player))
    (hpr : ∀ e ∈ l, isStale now e.2 = true → e.2.name.printable = true) :
    evictedKeys now l = staleKeys now l := by
  induction l with
  | nil => simp [evictedKeys, staleKeys]
  | cons hd t ih =>
    obtain ⟨id, player⟩ := hd
    have iht := ih (fun e he => hpr e (List.mem_cons_of_mem _ he))
    cases hs : isStale now player
    · rw [evictedKeys_cons_fresh now id player t hs, staleKeys_cons_fresh now id player t hs, iht]
    · have hn := hpr (id, player) (List.mem_cons_self _ _) hs
      rw [evictedKeys_cons_stale now id player t hs hn, staleKeys_cons_stale now id player t hs,
        iht]

theorem staleKeys_nodup (now : Int) (m : Players) (hnd : (Players.keys m).Nodup) :
    (staleKeys now m).Nodup :=
  List.Nodup.sublist (List.Sublist.map Prod.fst (List.filter_sublist m)) hnd

theorem evictedKeys_nodup (now : Int) (m : Players) (hnd : (Players.keys m).Nodup) :
    (evictedKeys now m).Nodup :=
  List.Nodup.sublist (evictedKeys_sublist now m) (staleKeys_nodup now m hnd)

theorem mem_staleKeys_iff (now : Int) (m : Players) (hnd : (Players.keys m).Nodup)
    (e : Val × Player) (he : e ∈ m) : e.1 ∈ staleKeys now m ↔ isStale now e.2 = true := by
  constructor
  · intro h
    simp only [staleKeys, List.mem_map, List.mem_filter] at h
    obtain ⟨e', ⟨he', hs⟩, hk⟩ := h
    have := Players.eq_of_key_eq m hnd e' e he' he hk
    subst this
    exact hs
  · intro h
    simp only [staleKeys, List.mem_map, List.mem_filter]
    exact ⟨e, ⟨he, h⟩, rfl⟩

theorem sweep_count (now : Int) (isOpen : Chan → Bool) (players : Players) (i : Val) :
    (broadcasts (sweep now isOpen players).2).count (ServerMsg.player_left i) =
      (evictedKeys now players).count i := by
  unfold sweep
  rw [sweepLoop_broadcasts]
  exact List.count_map_of_injective (evictedKeys now players) ServerMsg.player_left
    (by intro a b hab; simpa using hab) i

theorem sweep_get (now : Int) (isOpen : Chan → Bool) (players : Players) (i : Val) :
    Players.get (sweep now isOpen players).1 i =
      if i ∈ evictedKeys now players then none else Players.get players i := by
  unfold sweep
  rw [sweepLoop_players]
  have h := Players.get_filter_key players (fun k => decide (k ∉ evictedKeys now players)) i
  rw [h]
  by_cases hi : i ∈ evictedKeys now players <;> simp [hi]

theorem step_keys_nodup (s : Server) (e : Event) (h : (Players.keys s.players).Nodup) :
    (Players.keys (step s e).1.players).Nodup := by
  cases e with
  | message ws now m => exact onMessage_keys_nodup _ _ _ _ _ _ h
  | close ws =>
    show (Players.keys (onClose _ s.players (s.playerId ws)).1).Nodup
    rcases onClose_players (fun c => if c = ws then false else s.isOpen c) s.players
      (s.playerId ws) with hc | hc
    · rw [hc]
      exact h
    · rw [hc]
      exact Players.filter_keys_nodup _ _ h
  | error ws => exact h
  | tick now =>
    show (Players.keys (sweep now s.isOpen s.players).1).Nodup
    unfold sweep
    rw [sweepLoop_players]
    exact Players.filter_keys_nodup _ _ h
  | notOpen ws => exact h

theorem reachable_keys_nodup (s : Server) (h : Reachable s) : (Players.keys s.players).Nodup := by
  induction h with
  | init => simp [Server.init, Players.keys]
  | step s e _ ih => exact step_keys_nodup s e ih

theorem staleKeys_subset_keys (now : Int) (m : Players) (i : Val)
    (h : i ∈ staleKeys now m) : i ∈ Players.keys m := by
  simp only [staleKeys, List.mem_map, List.mem_filter] at h
  obtain ⟨e, ⟨he, _⟩, hk⟩ := h
  exact hk ▸ List.mem_map_of_mem Prod.fst he

theorem evictedKeys_subset_keys (now : Int) (m : Players) (i : Val)
    (h : i ∈ evictedKeys now m) : i ∈ Players.keys m :=
  staleKeys_subset_keys now m i ((evictedKeys_sublist now m).subset h)

theorem Players.not_mem_keys_of_get_none (m : Players) (i : Val)
    (h : Players.get m i = none) : i ∉ Players.keys m := by
  induction m with
  | nil => simp [Players.keys]
  | cons hd t ih =>
    obtain ⟨k', v'⟩ := hd
    by_cases hi : k' = i
    · simp [Players.get, hi] at h
    · simp only [Players.get, hi, if_false] at h
      have := ih h
      simp only [Players.keys, List.mem_cons, List.map_cons, not_or]
      exact ⟨fun e => hi e.symm, this⟩

/-- C7: "a" (whose name is the object `{"toString": 0}`), "b" and "c" are all stale at the
tick.  The tick deletes "a" and broadcasts its `player_left`, then the `console.log` that
ends the loop body throws on the name: the loop is left, and "b" and "c", both more than
10000 ms old, stay registered and are the subject of no `player_left`. -/
theorem sweep_stops_at_unprintable_name :
    Reachable unprintableFirstState ∧
    Players.keys unprintableFirstState.players = [.str "a", .str "b", .str "c"] ∧
    unprintableFirstState.players.all (fun e => decide (20000 - e.2.lastUpdate > 10000)) = true ∧
    Players.keys (step unprintableFirstState (.tick 20000)).1.players = [.str "b", .str "c"] ∧
    (step unprintableFirstState (.tick 20000)).2 =
      [Out.broadcast (.player_left (.str "a")) [2, 3], Out.uncaught] :=
  ⟨reachable_run _ _ Reachable.init, by decide, by decide, by decide, by decide⟩

/-- When the name of every stale record converts to a string, one sweep tick at time
`now` keeps exactly the entries with `now - lastUpdate ≤ 10000`, in order and unchanged; a
registered id whose record has `now - lastUpdate > 10000` is gone afterwards and is the
subject of exactly one `player_left` broadcast, every other id is the subject of none, and
the tick makes no other send. -/
theorem printable_sweep_removes_exactly_stale (now : Int) (isOpen : Chan → Bool)
    (players : Players) (hnd : (Players.keys players).Nodup)
    (hpr : ∀ e ∈ players, isStale now e.2 = true → e.2.name.printable = true) :
    (sweep now isOpen players).1 =
      players.filter (fun e => decide (¬ (now - e.2.lastUpdate > 10000))) ∧
    (∀ i p, Players.get players i = some p → now - p.lastUpdate > 10000 →
      Players.get (sweep now isOpen players).1 i = none ∧
      (broadcasts (sweep now isOpen players).2).count (ServerMsg.player_left i) = 1) ∧
    (∀ i p, Players.get players i = some p → ¬ (now - p.lastUpdate > 10000) →
      Players.get (sweep now isOpen players).1 i = some p ∧
      (broadcasts (sweep now isOpen players).2).count (ServerMsg.player_left i) = 0) ∧
    (∀ i, Players.get players i = none →
      Players.get (sweep now isOpen players).1 i = none ∧
      (broadcasts (sweep now isOpen players).2).count (ServerMsg.player_left i) = 0) := by
  have hev := evictedKeys_eq_staleKeys now players hpr
  refine ⟨?_, ?_, ?_, ?_⟩
  · unfold sweep
    rw [sweepLoop_players, hev]
    apply List.filter_congr
    intro e he
    have hiff := mem_staleKeys_iff now players hnd e he
    by_cases h : now - e.2.lastUpdate > 10000
    · have : e.1 ∈ staleKeys now players := hiff.mpr (by simp [isStale, staleThreshold, h])
      simp [this, h]
    · have : e.1 ∉ staleKeys now players := fun hm => by
        have h2 := hiff.mp hm
        simp [isStale, staleThreshold] at h2
        exact h h2
      simp [this, h]
  · intro i p hget hst
    have hmem := Players.mem_of_get players i p hget
    have hs : i ∈ evictedKeys now players := by
      rw [hev]
      exact (mem_staleKeys_iff now players hnd (i, p) hmem).mpr
        (by simp [isStale, staleThreshold, hst])
    refine ⟨by rw [sweep_get]; simp [hs], ?_⟩
    rw [sweep_count now isOpen players]
    exact List.count_eq_one_of_mem (evictedKeys_nodup now players hnd) hs
  · intro i p hget hst
    have hmem := Players.mem_of_get players i p hget
    have hs : i ∉ evictedKeys now players := by
      rw [hev]
      intro h
      have := (mem_staleKeys_iff now players hnd (i, p) hmem).mp h
      simp [isStale, staleThreshold] at this
      exact hst this
    refine ⟨by rw [sweep_get]; simp [hs, hget], ?_⟩
    rw [sweep_count now isOpen players]
    exact List.count_eq_zero_of_not_mem hs
  · intro i hget
    have hs : i ∉ evictedKeys now players := fun h =>
      Players.not_mem_keys_of_get_none players i hget (evictedKeys_subset_keys now players i h)
    refine ⟨by rw [sweep_get]; simp [hs, hget], ?_⟩
    rw [sweep_count now isOpen players]
    exact List.count_eq_zero_of_not_mem hs

theorem sweepLoop_append (now : Int) (isOpen : Chan → Bool) (a b : List (Val × Player))
    (players : Players)
    (hpr : ∀ x ∈ a, isStale now x.2 = true → x.2.name.printable = true) :
    sweepLoop now isOpen (a ++ b) players =
      ((sweepLoop now isOpen b (sweepLoop now isOpen a players).1).1,
        (sweepLoop now isOpen a players).2 ++
          (sweepLoop now isOpen b (sweepLoop now isOpen a players).1).2) := by
  induction a generalizing players with
  | nil => simp [sweepLoop]
  | cons hd t ih =>
    obtain ⟨id, player⟩ := hd
    have iht := fun players => ih players (fun x hx => hpr x (List.mem_cons_of_mem _ hx))
    cases hs : isStale now player
    · rw [List.cons_append, sweepLoop_cons_fresh _ _ _ _ _ _ hs,
        sweepLoop_cons_fresh _ _ _ _ _ _ hs]
      exact iht players
    · have hn := hpr (id, player) (List.mem_cons_self _ _) hs
      rw [List.cons_append, sweepLoop_cons_stale _ _ _ _ _ _ hs hn,
        sweepLoop_cons_stale _ _ _ _ _ _ hs hn, iht]
      simp

theorem sweepLoop_mem_key (now : Int) (isOpen : Chan → Bool) (rest : List (Val × Player))
    (players : Players) (k : Val) (written : List Chan)
    (h : Out.broadcast (ServerMsg.player_left k) written ∈ (sweepLoop now isOpen rest players).2) :
    k ∈ evictedKeys now rest := by
  have hm : ServerMsg.player_left k ∈ broadcasts (sweepLoop now isOpen rest players).2 := by
    simp only [broadcasts, List.mem_filterMap]
    exact ⟨_, h, rfl⟩
  rw [sweepLoop_broadcasts] at hm
  simp only [List.mem_map, ServerMsg.player_left.injEq] at hm
  obtain ⟨k', hk', rfl⟩ := hm
  exact hk'

theorem recipients_of_no_null_key (players : Players) (isOpen : Chan → Bool)
    (h : Val.null ∉ Players.keys players) :
    recipients players isOpen Val.undefined =
      (players.filter (fun x => isOpen x.2.ws)).map (fun x => x.2.ws) := by
  simp only [recipients, if_true]
  congr 1
  apply List.filter_congr
  intro x hx
  have : x.1 ≠ Val.null := fun e => h (e ▸ List.mem_map_of_mem Prod.fst hx)
  simp [this]

/-- C8, as the code has it: the sweep deletes and broadcasts entry by entry.  When the loop
reaches a stale entry (the name of every stale entry before it converts to a string) and no
entry is keyed `null`, the `player_left` of that entry is written by one `broadcast` to the
open sockets of the map as it stands right after that deletion: the entries before it that
are not stale, and every entry after it, stale or not. -/
theorem sweep_player_left_recipients (now : Int) (isOpen : Chan → Bool) (pre post : Players)
    (e : Val × Player) (hnd : (Players.keys (pre ++ e :: post)).Nodup)
    (hst : now - e.2.lastUpdate > 10000)
    (hpr : ∀ x ∈ pre, now - x.2.lastUpdate > 10000 → x.2.name.printable = true)
    (hnull : Val.null ∉ Players.keys (pre ++ e :: post)) (written : List Chan) :
    Out.broadcast (ServerMsg.player_left e.1) written ∈ (sweep now isOpen (pre ++ e :: post)).2 ↔
      written =
        ((pre.filter (fun x => decide (¬ (now - x.2.lastUpdate > 10000))) ++ post).filter
          (fun x => isOpen x.2.ws)).map (fun x => x.2.ws) := by
  obtain ⟨ek, ep⟩ := e
  have hs : isStale now ep = true := by simp [isStale, staleThreshold, hst]
  have hpr' : ∀ x ∈ pre, isStale now x.2 = true → x.2.name.printable = true := by
    intro x hx hxs
    apply hpr x hx
    simpa [isStale, staleThreshold] using hxs
  have hnull' : Val.null ∉ Players.keys
      (pre.filter (fun x => decide (¬ (now - x.2.lastUpdate > 10000))) ++ post) := by
    intro hm
    apply hnull
    simp only [Players.keys, List.map_append, List.mem_append, List.mem_map, List.map_cons,
      List.mem_cons] at hm ⊢
    rcases hm with ⟨x, hx, hk⟩ | ⟨x, hx, hk⟩
    · exact Or.inl ⟨x, List.mem_of_mem_filter hx, hk⟩
    · exact Or.inr (Or.inr ⟨x, hx, hk⟩)
  simp only [Players.keys, List.map_append, List.map_cons] at hnd
  obtain ⟨hpre, hrest, hdisj⟩ := List.nodup_append.mp hnd
  have hek_post : ek ∉ post.map Prod.fst := (List.nodup_cons.mp hrest).1
  have hek_pre : ek ∉ pre.map Prod.fst := fun h => hdisj h (List.mem_cons_self _ _)
  have hmap : (Players.delete
      (sweepLoop now isOpen pre (pre ++ (ek, ep) :: post)).1 ek) =
      pre.filter (fun x => decide (¬ (now - x.2.lastUpdate > 10000))) ++ post := by
    rw [sweepLoop_players, evictedKeys_eq_staleKeys now pre hpr']
    unfold Players.delete
    rw [List.filter_filter, List.filter_append, List.filter_cons]
    simp only [ne_eq, not_true_eq_false, decide_False, Bool.false_and, Bool.false_eq_true,
      if_false]
    congr 1
    · apply List.filter_congr
      intro x hx
      have hx1 : x.1 ≠ ek := fun h => hek_pre (h ▸ List.mem_map_of_mem Prod.fst hx)
      have := mem_staleKeys_iff now pre hpre x hx
      by_cases hxs : now - x.2.lastUpdate > 10000
      · have : x.1 ∈ staleKeys now pre := this.mpr (by simp [isStale, staleThreshold, hxs])
        simp [hx1, this, hxs]
      · have : x.1 ∉ staleKeys now pre := fun h => by
          have h2 := this.mp h
          simp [isStale, staleThreshold] at h2
          exact hxs h2
        simp [hx1, this, hxs]
    · apply List.filter_eq_self.mpr
      intro x hx
      have hxk : x.1 ∈ post.map Prod.fst := List.mem_map_of_mem Prod.fst hx
      have hx1 : x.1 ≠ ek := fun h => hek_post (h ▸ hxk)
      have hx2 : x.1 ∉ staleKeys now pre := fun h =>
        hdisj (staleKeys_subset_keys now pre x.1 h) (List.mem_cons_of_mem _ hxk)
      simp [hx1, hx2]
  have hpre_no : ∀ w, Out.broadcast (ServerMsg.player_left ek) w ∉
      (sweepLoop now isOpen pre (pre ++ (ek, ep) :: post)).2 := fun w h =>
    hek_pre (evictedKeys_subset_keys now pre ek (sweepLoop_mem_key _ _ _ _ _ _ h))
  unfold sweep
  rw [sweepLoop_append _ _ _ _ _ hpr', ← recipients_of_no_null_key _ isOpen hnull']
  cases hn : ep.name.printable
  · rw [sweepLoop_cons_thrown _ _ _ _ _ _ hs hn]
    simp only [List.mem_append, List.mem_cons, List.mem_singleton]
    rw [hmap]
    constructor
    · rintro (h | h | h | h)
      · exact absurd h (hpre_no written)
      · simpa [broadcast] using h
      · cases h
      · cases h
    · intro h
      right; left
      simp [broadcast, h]
  · rw [sweepLoop_cons_stale _ _ _ _ _ _ hs hn]
    simp only [List.mem_append, List.mem_cons]
    rw [hmap]
    constructor
    · rintro (h | h | h)
      · exact absurd h (hpre_no written)
      · simpa [broadcast] using h
      · exact absurd (evictedKeys_subset_keys now post ek
          (sweepLoop_mem_key _ _ _ _ _ _ h)) hek_post
    · intro h
      right; left
      simp [broadcast, h]

/-- C8, as stated, fails: "a" and "b" are both stale at the tick; "a" is visited first, and
its `player_left` is written to the socket of "b", which the same tick evicts next. -/
theorem sweep_notifies_session_evicted_in_same_tick :
    Reachable twoJoinedState ∧
    (step twoJoinedState (.tick 20000)).1.players = [] ∧
    (step twoJoinedState (.tick 20000)).2 =
      [Out.broadcast (.player_left (.str "a")) [2], Out.broadcast (.player_left (.str "b")) []] ∧
    received 2 (step twoJoinedState (.tick 20000)).2 = [.player_left (.str "a")] :=
  ⟨reachable_run _ _ Reachable.init, by decide, by decide, by decide⟩

/-- C8 (amended) at two stale records "a", "b": the `player_left` of "a" is written to the
socket of "b". -/
theorem sweep_player_left_recipients_witness :
    (Players.keys ([] ++ (Val.str "a", mkPlayer (.str "a") 0 1) ::
      [(Val.str "b", mkPlayer (.str "b") 1 2)])).Nodup ∧
    (20000 : Int) - (Val.str "a", mkPlayer (.str "a") 0 1).2.lastUpdate > 10000 ∧
    (∀ x ∈ ([] : Players), (20000 : Int) - x.2.lastUpdate > 10000 →
      x.2.name.printable = true) ∧
    Val.null ∉ Players.keys ([] ++ (Val.str "a", mkPlayer (.str "a") 0 1) ::
      [(Val.str "b", mkPlayer (.str "b") 1 2)]) ∧
    Out.broadcast (ServerMsg.player_left (.str "a")) [2] ∈
      (sweep 20000 (fun _ => true) ([] ++ (Val.str "a", mkPlayer (.str "a") 0 1) ::
        [(Val.str "b", mkPlayer (.str "b") 1 2)])).2 :=
  ⟨by decide, by decide, by decide, by decide,
   (sweep_player_left_recipients 20000 (fun _ => true) []
     [(Val.str "b", mkPlayer (.str "b") 1 2)] (Val.str "a", mkPlayer (.str "a") 0 1)
     (by decide) (by decide) (by decide) (by decide) [2]).mpr (by decide)⟩

/-! ## Who can write a record -/

/-- C4, as stated, fails: "a" is registered with socket 2 as its output channel (connection
2 joined last under that id), yet an update received on socket 1, whose `playerId` is still
"a", rewrites the record. -/
theorem update_from_other_socket_rewrites_record :
    Reachable collisionState ∧
    (Players.get collisionState.players (.str "a")).map (fun p => (p.ws, p.x, p.hp)) =
      some (2, .num 0, .num 100) ∧
    (Players.get (step collisionState
        (.message 1 9 (.value (updateMsg 5 2 2 1 0 80 10 1)))).1.players (.str "a")).map
      (fun p => (p.ws, p.x, p.hp)) = some (2, .num 5, .num 80) :=
  ⟨reachable_run _ _ Reachable.init, by decide, by decide⟩

/-- C4, as the code has it: when an event leaves under id `i` a record whose position,
orientation or vitals are not those of the record that was there before (or none was
there), the event is a join message with id `i`, or an update message received on a socket
whose `playerId` is `i`. -/
theorem vitals_written_only_by_join_or_update (s : Server) (e : Event) (i : Val) (r' : Player)
    (hafter : Players.get (step s e).1.players i = some r')
    (hchg : (Players.get s.players i).map Player.vitals ≠ some r'.vitals) :
    ∃ ws now data, e = .message ws now (.value data) ∧
      ((data.type = Val.str "join" ∧ data.id = i) ∨
       (data.type = Val.str "update" ∧ s.playerId ws = i)) := by
  by_contra hcon
  have hsame : Players.get s.players i = some r' := by
    cases e with
    | message ws now m =>
      cases m with
      | malformed => exact hafter
      | jsonNull => exact hafter
      | value data =>
        have hp : (step s (.message ws now (.value data))).1.players =
            (onMessage ws s.isOpen now (.value data) s.players (s.playerId ws)).1 := rfl
        rw [hp] at hafter
        by_cases hj : data.type = Val.str "join"
        · by_cases hi : data.id = i
          · exact absurd ⟨ws, now, data, rfl, Or.inl ⟨hj, hi⟩⟩ hcon
          · rw [onMessage_join_players _ _ _ _ _ _ hj, Players.get_set] at hafter
            simpa [hi] using hafter
        · by_cases hu : data.type = Val.str "update"
          · by_cases hi : s.playerId ws = i
            · exact absurd ⟨ws, now, data, rfl, Or.inr ⟨hu, hi⟩⟩ hcon
            · cases ht : (s.playerId ws).truthy
              · rw [onMessage_update_ignored _ _ _ _ _ _ hu (Or.inl ht)] at hafter
                exact hafter
              · cases hg : Players.get s.players (s.playerId ws) with
                | none =>
                  rw [onMessage_update_ignored _ _ _ _ _ _ hu (Or.inr hg)] at hafter
                  exact hafter
                | some player =>
                  rw [onMessage_update _ _ _ _ _ _ player hu ht hg] at hafter
                  simp only at hafter
                  rw [Players.get_set] at hafter
                  simpa [hi] using hafter
          · simpa [onMessage, hj, hu] using hafter
    | close ws =>
      have hp : (step s (.close ws)).1.players =
          (onClose (fun c => if c = ws then false else s.isOpen c) s.players
            (s.playerId ws)).1 := rfl
      rw [hp] at hafter
      rcases onClose_players (fun c => if c = ws then false else s.isOpen c) s.players
        (s.playerId ws) with hc | hc
      · rw [hc] at hafter
        exact hafter
      · rw [hc, Players.get_delete] at hafter
        by_cases hi : i = s.playerId ws
        · simp [hi] at hafter
        · simpa [hi] using hafter
    | error ws => exact hafter
    | tick now =>
      have hp : (step s (.tick now)).1.players = (sweep now s.isOpen s.players).1 := rfl
      rw [hp, sweep_get] at hafter
      by_cases hi : i ∈ evictedKeys now s.players
      · simp [hi] at hafter
      · simpa [hi] using hafter
    | notOpen ws => exact hafter
  exact hchg (by rw [hsame]; rfl)

/-- C4 (amended) at the update on socket 1 that rewrites the record under "a". -/
theorem vitals_written_only_by_join_or_update_witness :
    Players.get (step collisionState
      (.message 1 9 (.value (updateMsg 5 2 2 1 0 80 10 1)))).1.players (.str "a") =
      some (applyUpdate (joinRecord (joinMsg (.str "a") (.str "A2")) 1 2)
        (updateMsg 5 2 2 1 0 80 10 1) 9) ∧
    (Players.get collisionState.players (.str "a")).map Player.vitals ≠
      some (applyUpdate (joinRecord (joinMsg (.str "a") (.str "A2")) 1 2)
        (updateMsg 5 2 2 1 0 80 10 1) 9).vitals ∧
    ∃ ws now data,
      Event.message 1 9 (.value (updateMsg 5 2 2 1 0 80 10 1)) = .message ws now (.value data) ∧
      ((data.type = Val.str "join" ∧ data.id = .str "a") ∨
       (data.type = Val.str "update" ∧ collisionState.playerId ws = .str "a")) :=
  ⟨by decide, by decide,
   vitals_written_only_by_join_or_update collisionState
     (.message 1 9 (.value (updateMsg 5 2 2 1 0 80 10 1))) (.str "a")
     (applyUpdate (joinRecord (joinMsg (.str "a") (.str "A2")) 1 2)
        (updateMsg 5 2 2 1 0 80 10 1) 9) (by decide) (by decide)⟩

/-! ## Close and error -/

theorem step_playerId_of_not_join (s : Server) (e : Event) (ws : Chan)
    (h : Event.isJoinOn ws e = false) : (step s e).1.playerId ws = s.playerId ws := by
  cases e with
  | message ws' now m =>
    show (if ws = ws' then (onMessage ws' s.isOpen now m s.players (s.playerId ws')).2.1
      else s.playerId ws) = s.playerId ws
    by_cases hw : ws = ws'
    · subst hw
      simp only [if_true]
      cases m with
      | malformed => rfl
      | jsonNull => rfl
      | value data =>
        have hj : ¬ data.type = Val.str "join" := by
          simpa [Event.isJoinOn] using h
        by_cases hu : data.type = Val.str "update"
        · cases ht : (s.playerId ws).truthy
          · rw [onMessage_update_ignored _ _ _ _ _ _ hu (Or.inl ht)]
          · cases hg : Players.get s.players (s.playerId ws) with
            | none => rw [onMessage_update_ignored _ _ _ _ _ _ hu (Or.inr hg)]
            | some player => rw [onMessage_update _ _ _ _ _ _ player hu ht hg]
        · simp [onMessage, hj, hu]
    · simp [hw]
  | close ws' => rfl
  | error ws' => rfl
  | tick now => rfl
  | notOpen ws' => rfl

theorem run_playerId_of_no_join (s : Server) (es : List Event) (ws : Chan)
    (h : ∀ e ∈ es, Event.isJoinOn ws e = false) :
    (run s es).1.playerId ws = s.playerId ws := by
  induction es generalizing s with
  | nil => rfl
  | cons e es ih =>
    show (run (step s e).1 es).1.playerId ws = s.playerId ws
    rw [ih (step s e).1 (fun e' he' => h e' (List.mem_cons_of_mem _ he'))]
    exact step_playerId_of_not_join s e ws (h e (List.mem_cons_self _ _))

/-- C15: after any events among which connection `ws` handled no join message, its
`playerId` is still `null`, and its close event leaves the map as it is and sends nothing;
the close handler does so on every map when `playerId` is `null`. -/
theorem close_without_join_changes_nothing (es : List Event) (ws : Chan)
    (h : ∀ e ∈ es, Event.isJoinOn ws e = false) :
    (run Server.init es).1.playerId ws = Val.null ∧
    (step (run Server.init es).1 (.close ws)).1.players = (run Server.init es).1.players ∧
    (step (run Server.init es).1 (.close ws)).2 = [] ∧
    (∀ (isOpen : Chan → Bool) (players : Players),
      onClose isOpen players Val.null = (players, [])) := by
  have hp : (run Server.init es).1.playerId ws = Val.null :=
    run_playerId_of_no_join Server.init es ws h
  have hc : ∀ (isOpen : Chan → Bool) (players : Players),
      onClose isOpen players Val.null = (players, []) := fun isOpen players =>
    onClose_ignored isOpen players Val.null (Or.inl rfl)
  refine ⟨hp, ?_, ?_, hc⟩
  · show (onClose _ (run Server.init es).1.players ((run Server.init es).1.playerId ws)).1 = _
    rw [hp, hc]
  · show (onClose _ (run Server.init es).1.players ((run Server.init es).1.playerId ws)).2 = _
    rw [hp, hc]

/-- C15 at connection 2, after connection 1 joined as "a" and connection 2 sent an update. -/
theorem close_without_join_changes_nothing_witness :
    (∀ e ∈ [Event.message 1 0 (.value (joinMsg (.str "a") (.str "A"))),
        Event.message 2 3 (.value (updateMsg 5 2 2 1 0 80 10 1))],
      Event.isJoinOn 2 e = false) ∧
    (step (run Server.init [Event.message 1 0 (.value (joinMsg (.str "a") (.str "A"))),
        Event.message 2 3 (.value (updateMsg 5 2 2 1 0 80 10 1))]).1 (.close 2)).2 = [] :=
  ⟨by decide,
   (close_without_join_changes_nothing
      [Event.message 1 0 (.value (joinMsg (.str "a") (.str "A"))),
       Event.message 2 3 (.value (updateMsg 5 2 2 1 0 80 10 1))] 2 (by decide)).2.2.1⟩

/-- C16, as stated, fails: with "a" on socket 1 and "b" on socket 2, the error event of
socket 1 leaves "a" registered and sends nothing, while its close event removes "a" and
broadcasts `player_left`. -/
theorem error_does_not_clean_up :
    Reachable twoJoinedState ∧
    (step twoJoinedState (.error 1)).1.players = twoJoinedState.players ∧
    (step twoJoinedState (.error 1)).2 = [] ∧
    Players.has (step twoJoinedState (.close 1)).1.players (.str "a") = false ∧
    (step twoJoinedState (.close 1)).2 = [Out.broadcast (.player_left (.str "a")) [2]] :=
  ⟨reachable_run _ _ Reachable.init, by decide, by decide, by decide, by decide⟩

/-- C16, as the code has it: the error handler only logs; the map, every connection's
`playerId` and the socket states are as before and nothing is sent.  Removal and
`player_left` come from the close handler alone. -/
theorem error_changes_nothing (s : Server) (ws : Chan) :
    (step s (.error ws)).1.players = s.players ∧
    (step s (.error ws)).1.playerId = s.playerId ∧
    (step s (.error ws)).1.isOpen = s.isOpen ∧
    (step s (.error ws)).2 = [] ∧
    onError s.players = (s.players, []) :=
  ⟨rfl, rfl, rfl, rfl, rfl⟩

/-! ## What an update and a join store -/

theorem Players.mem_keys_of_get (m : Players) (i : Val) (p : Player)
    (h : Players.get m i = some p) : i ∈ Players.keys m := by
  by_contra hn
  rw [Players.get_none_of_not_mem_keys m i hn] at h
  cases h

theorem Players.mem_set_of_mem (m : Players) (k k2 : Val) (v v2 : Player)
    (h : (k, v) ∈ m) (hne : k ≠ k2) : (k, v) ∈ Players.set m k2 v2 := by
  induction m with
  | nil => simp at h
  | cons hd t ih =>
    obtain ⟨k', v'⟩ := hd
    by_cases hk : k' = k2
    · subst hk
      rcases List.mem_cons.mp h with h | h
      · cases h
        exact absurd rfl hne
      · simp [Players.set, h]
    · rcases List.mem_cons.mp h with h | h
      · cases h
        simp [Players.set, hk]
      · simp [Players.set, hk, ih h]

/-- C17: when an update is applied for the connection whose `playerId` is registered, the
record under that id takes `x`, `y`, `z`, `yaw`, `pitch`, `hp`, `score`, `weapon` from the
message as they are, `lastUpdate` becomes `now`, and `id`, `name` and `ws` stay; the keys
of the map and the record under every other id are unchanged, and so is `playerId`. -/
theorem update_replaces_vitals_only (ws : Chan) (isOpen : Chan → Bool) (now : Int)
    (data : Data) (players : Players) (playerId : Val) (player : Player)
    (hu : data.type = Val.str "update") (ht : playerId.truthy = true)
    (hg : Players.get players playerId = some player) :
    Players.get (onMessage ws isOpen now (.value data) players playerId).1 playerId =
      some { id := player.id, name := player.name, x := data.x, y := data.y, z := data.z,
             yaw := data.yaw, pitch := data.pitch, hp := data.hp, score := data.score,
             weapon := data.weapon, lastUpdate := now, ws := player.ws } ∧
    Players.keys (onMessage ws isOpen now (.value data) players playerId).1 =
      Players.keys players ∧
    (∀ i, i ≠ playerId →
      Players.get (onMessage ws isOpen now (.value data) players playerId).1 i =
        Players.get players i) ∧
    (onMessage ws isOpen now (.value data) players playerId).2.1 = playerId := by
  rw [onMessage_update ws isOpen now data players playerId player hu ht hg]
  refine ⟨?_, ?_, ?_, rfl⟩
  · simp only
    rw [Players.get_set]
    simp [applyUpdate]
  · simp only
    rw [Players.keys_set]
    simp [Players.mem_keys_of_get players playerId player hg]
  · intro i hi
    simp only
    rw [Players.get_set]
    have : ¬ playerId = i := fun e => hi e.symm
    simp [this]

/-- C17 at the update of "a" on socket 1: the stored `x` is 5, the time is 9, and `name`
and `ws` are those of the join. -/
theorem update_replaces_vitals_only_witness :
    (updateMsg 5 2 2 1 0 80 10 1).type = Val.str "update" ∧
    (joinedState.playerId 1).truthy = true ∧
    Players.get joinedState.players (joinedState.playerId 1) =
      some (joinRecord (joinMsg (.str "a") (.str "A")) 0 1) ∧
    Players.get (onMessage 1 joinedState.isOpen 9 (.value (updateMsg 5 2 2 1 0 80 10 1))
        joinedState.players (joinedState.playerId 1)).1 (joinedState.playerId 1) =
      some { id := .str "a", name := .str "A", x := .num 5, y := .num 2, z := .num 2,
             yaw := .num 1, pitch := .num 0, hp := .num 80, score := .num 10,
             weapon := .num 1, lastUpdate := 9, ws := 1 } :=
  ⟨rfl, by decide, by decide,
   (update_replaces_vitals_only 1 joinedState.isOpen 9 (updateMsg 5 2 2 1 0 80 10 1)
      joinedState.players (joinedState.playerId 1)
      (joinRecord (joinMsg (.str "a") (.str "A")) 0 1) rfl (by decide) (by decide)).1.trans
     (by decide)⟩

/-- C18: a join stores `joinRecord data now ws` under `data.id`, and every broadcast it
makes is `player_joined` with the public view of exactly that record; it makes exactly one
when `data.name` and `data.id` convert to strings (otherwise the `console.log` of the join
case throws before anything is sent).  A later join with another id, handled on the map
this join left, lists the same public view in every `init` it sends, and it sends one when
its own name and id convert to strings. -/
theorem player_joined_is_view_of_stored_record (ws : Chan) (isOpen : Chan → Bool) (now : Int)
    (data : Data) (players : Players) (playerId : Val) (h : data.type = Val.str "join") :
    Players.get (onMessage ws isOpen now (.value data) players playerId).1 data.id =
      some (joinRecord data now ws) ∧
    (∀ m ∈ broadcasts (onMessage ws isOpen now (.value data) players playerId).2.2,
      m = ServerMsg.player_joined (publicView (joinRecord data now ws))) ∧
    (data.name.printable = true → data.id.printable = true →
      broadcasts (onMessage ws isOpen now (.value data) players playerId).2.2 =
        [ServerMsg.player_joined (publicView (joinRecord data now ws))]) ∧
    (∀ (ws' : Chan) (isOpen' : Chan → Bool) (now' : Int) (data' : Data) (playerId' : Val),
      data'.type = Val.str "join" → data'.id ≠ data.id →
      (∀ L, Out.send ws' (ServerMsg.init L) ∈ (onMessage ws' isOpen' now' (.value data')
          (onMessage ws isOpen now (.value data) players playerId).1 playerId').2.2 →
        publicView (joinRecord data now ws) ∈ L) ∧
      (data'.name.printable = true → data'.id.printable = true →
        ∃ L, (onMessage ws' isOpen' now' (.value data')
          (onMessage ws isOpen now (.value data) players playerId).1 playerId').2.2.head? =
            some (Out.send ws' (ServerMsg.init L)))) := by
  have hget : Players.get (Players.set players data.id (joinRecord data now ws)) data.id =
      some (joinRecord data now ws) := by
    rw [Players.get_set]
    simp
  have hone : data.name.printable = true → data.id.printable = true →
      broadcasts (onMessage ws isOpen now (.value data) players playerId).2.2 =
        [ServerMsg.player_joined (publicView (joinRecord data now ws))] := by
    intro hn hi
    rw [onMessage_join _ _ _ _ _ _ h hn hi]
    simp [broadcasts, broadcast, Out.broadcastMsg, joinedView, publicView, joinRecord]
  refine ⟨?_, ?_, hone, ?_⟩
  · rw [onMessage_join_players _ _ _ _ _ _ h]
    exact hget
  · intro m hm
    cases hn : data.name.printable
    · rw [onMessage_join_thrown _ _ _ _ _ _ h (Or.inl hn)] at hm
      simp [broadcasts] at hm
    · cases hi : data.id.printable
      · rw [onMessage_join_thrown _ _ _ _ _ _ h (Or.inr hi)] at hm
        simp [broadcasts] at hm
      · rw [hone hn hi] at hm
        simpa using hm
  · intro ws' isOpen' now' data' playerId' h' hne
    rw [onMessage_join_players _ _ _ _ _ _ h]
    have hmem := Players.mem_set_of_mem _ data.id data'.id (joinRecord data now ws)
      (joinRecord data' now' ws') (Players.mem_of_get _ _ _ hget) (fun e => hne e.symm)
    have hin : publicView (joinRecord data now ws) ∈
        ((Players.values (Players.set (Players.set players data.id (joinRecord data now ws))
          data'.id (joinRecord data' now' ws'))).filter
            (fun p => decide (p.id ≠ data'.id))).map publicView := by
      simp only [List.mem_map, List.mem_filter, Players.values, decide_eq_true_eq]
      refine ⟨joinRecord data now ws, ⟨⟨(data.id, joinRecord data now ws), hmem, rfl⟩, ?_⟩, rfl⟩
      exact fun e => hne e.symm
    refine ⟨?_, ?_⟩
    · intro L hL
      cases hn : data'.name.printable
      · rw [onMessage_join_thrown _ _ _ _ _ _ h' (Or.inl hn)] at hL
        simp at hL
      · cases hi : data'.id.printable
        · rw [onMessage_join_thrown _ _ _ _ _ _ h' (Or.inr hi)] at hL
          simp at hL
        · rw [onMessage_join _ _ _ _ _ _ h' hn hi] at hL
          simp only [broadcast, List.mem_cons, Out.send.injEq, ServerMsg.init.injEq, true_and,
            List.mem_singleton] at hL
          rcases hL with hL | hL | hL
          · rw [hL]
            exact hin
          · cases hL
          · cases hL
    · intro hn hi
      rw [onMessage_join _ _ _ _ _ _ h' hn hi]
      exact ⟨_, rfl⟩

/-- C18 at the join of "b" on socket 2 while "a" is registered. -/
theorem player_joined_is_view_of_stored_record_witness :
    (joinMsg (.str "b") (.str "B")).type = Val.str "join" ∧
    (joinMsg (.str "b") (.str "B")).name.printable = true ∧
    (joinMsg (.str "b") (.str "B")).id.printable = true ∧
    broadcasts (onMessage 2 joinedState.isOpen 5 (.value (joinMsg (.str "b") (.str "B")))
        joinedState.players (joinedState.playerId 2)).2.2 =
      [ServerMsg.player_joined (defaultView (.str "b") (.str "B"))] :=
  ⟨rfl, rfl, rfl, ((player_joined_is_view_of_stored_record 2 joinedState.isOpen 5
    (joinMsg (.str "b") (.str "B")) joinedState.players (joinedState.playerId 2) rfl).2.2.1
      rfl rfl).trans (by decide)⟩

/-! ## Departure notifications and deletions -/

theorem broadcasts_append (a b : List Out) : broadcasts (a ++ b) = broadcasts a ++ broadcasts b := by
  simp [broadcasts, List.filterMap_append]

theorem deleted_of_get_eq (i : Val) (before after : Players)
    (h : Players.get after i = Players.get before i) : deleted i before after = 0 := by
  unfold deleted Players.has
  rw [h]
  cases (Players.get before i).isSome <;> rfl

theorem deleted_of_has_after (i : Val) (before after : Players)
    (h : Players.has after i = true) : deleted i before after = 0 := by
  simp [deleted, h]

theorem deleted_set (i k : Val) (v : Player) (m : Players) :
    deleted i m (Players.set m k v) = 0 := by
  by_cases hk : k = i
  · apply deleted_of_has_after
    simp [Players.has, Players.get_set, hk]
  · apply deleted_of_get_eq
    rw [Players.get_set]
    simp [hk]

theorem onMessage_player_left_count (ws : Chan) (isOpen : Chan → Bool) (now : Int)
    (m : Inbound) (players : Players) (playerId : Val) (i : Val) :
    (broadcasts (onMessage ws isOpen now m players playerId).2.2).count
        (ServerMsg.player_left i) = 0 ∧
    deleted i players (onMessage ws isOpen now m players playerId).1 = 0 := by
  cases m with
  | malformed => exact ⟨rfl, deleted_of_get_eq _ _ _ rfl⟩
  | jsonNull => exact ⟨rfl, deleted_of_get_eq _ _ _ rfl⟩
  | value data =>
    by_cases hj : data.type = Val.str "join"
    · refine ⟨?_, ?_⟩
      · cases hn : data.name.printable
        · rw [onMessage_join_thrown _ _ _ _ _ _ hj (Or.inl hn)]
          rfl
        · cases hi : data.id.printable
          · rw [onMessage_join_thrown _ _ _ _ _ _ hj (Or.inr hi)]
            rfl
          · rw [onMessage_join _ _ _ _ _ _ hj hn hi]
            simp [broadcasts, broadcast, Out.broadcastMsg]
      · rw [onMessage_join_players _ _ _ _ _ _ hj]
        exact deleted_set _ _ _ _
    · by_cases hu : data.type = Val.str "update"
      · cases ht : playerId.truthy
        · rw [onMessage_update_ignored _ _ _ _ _ _ hu (Or.inl ht)]
          exact ⟨rfl, deleted_of_get_eq _ _ _ rfl⟩
        · cases hg : Players.get players playerId with
          | none =>
            rw [onMessage_update_ignored _ _ _ _ _ _ hu (Or.inr hg)]
            exact ⟨rfl, deleted_of_get_eq _ _ _ rfl⟩
          | some player =>
            rw [onMessage_update _ _ _ _ _ _ player hu ht hg]
            exact ⟨by simp [broadcasts, broadcast, Out.broadcastMsg], deleted_set _ _ _ _⟩
      · have : onMessage ws isOpen now (.value data) players playerId =
            (players, playerId, []) := by simp [onMessage, hj, hu]
        rw [this]
        exact ⟨rfl, deleted_of_get_eq _ _ _ rfl⟩

theorem onClose_player_left_count (isOpen : Chan → Bool) (players : Players) (playerId : Val)
    (i : Val) :
    (broadcasts (onClose isOpen players playerId).2).count (ServerMsg.player_left i) ≤
      deleted i players (onClose isOpen players playerId).1 := by
  cases ht : playerId.truthy
  · rw [onClose_ignored isOpen players playerId (Or.inl ht)]
    exact Nat.zero_le _
  · cases hg : Players.get players playerId with
    | none =>
      rw [onClose_ignored isOpen players playerId (Or.inr (by simp [Players.has, hg]))]
      exact Nat.zero_le _
    | some player =>
      by_cases hp : player.name.printable = true ∧ playerId.printable = true
      · rw [onClose_registered isOpen players playerId player ht hg hp.1 hp.2]
        by_cases hi : i = playerId
        · subst hi
          simp [broadcasts, broadcast, Out.broadcastMsg, deleted, Players.has,
            Players.get_delete, hg]
        · have hz : (broadcasts [broadcast (Players.delete players playerId) isOpen
              (ServerMsg.player_left playerId) Val.undefined]).count
                (ServerMsg.player_left i) = 0 := by
            apply List.count_eq_zero_of_not_mem
            simp [broadcasts, broadcast, Out.broadcastMsg, hi]
          rw [hz]
          exact Nat.zero_le _
      · have hn : player.name.printable = false ∨ playerId.printable = false := by
          cases h1 : player.name.printable
          · exact Or.inl rfl
          · cases h2 : playerId.printable
            · exact Or.inr rfl
            · exact absurd ⟨h1, h2⟩ hp
        rw [onClose_thrown isOpen players playerId player ht hg hn]
        exact Nat.zero_le _

theorem Players.has_of_mem_keys (m : Players) (i : Val) (h : i ∈ Players.keys m) :
    Players.has m i = true := by
  cases hg : Players.get m i with
  | none => exact absurd h (Players.not_mem_keys_of_get_none m i hg)
  | some p => simp [Players.has, hg]

theorem sweep_player_left_count (now : Int) (isOpen : Chan → Bool) (players : Players)
    (hnd : (Players.keys players).Nodup) (i : Val) :
    (broadcasts (sweep now isOpen players).2).count (ServerMsg.player_left i) =
      deleted i players (sweep now isOpen players).1 := by
  rw [sweep_count]
  by_cases hs : i ∈ evictedKeys now players
  · rw [List.count_eq_one_of_mem (evictedKeys_nodup now players hnd) hs]
    have hb : (Players.get players i).isSome = true :=
      Players.has_of_mem_keys players i (evictedKeys_subset_keys now players i hs)
    simp [deleted, Players.has, sweep_get, hs, hb]
  · rw [List.count_eq_zero_of_not_mem hs, deleted_of_get_eq]
    rw [sweep_get]
    simp [hs]

theorem step_player_left_count (s : Server) (e : Event) (i : Val)
    (hnd : (Players.keys s.players).Nodup) :
    (broadcasts (step s e).2).count (ServerMsg.player_left i) ≤
      deleted i s.players (step s e).1.players := by
  cases e with
  | message ws now m =>
    have h := onMessage_player_left_count ws s.isOpen now m s.players (s.playerId ws) i
    show (broadcasts (onMessage ws s.isOpen now m s.players (s.playerId ws)).2.2).count _ ≤
      deleted i s.players (onMessage ws s.isOpen now m s.players (s.playerId ws)).1
    rw [h.1, h.2]
  | close ws => exact onClose_player_left_count _ s.players (s.playerId ws) i
  | error ws => exact Nat.zero_le _
  | tick now => exact Nat.le_of_eq (sweep_player_left_count now s.isOpen s.players hnd i)
  | notOpen ws => exact Nat.zero_le _

/-- C11: "b" is registered with the name `{"toString": 0}` when its socket closes.  The
close handler deletes the key, then its `console.log` throws on the name, and the
`broadcast` after it is never reached: one deletion of "b", no `player_left` for "b", and
socket 1, open and registered, is written nothing. -/
theorem close_with_unprintable_name_deletes_without_player_left :
    Reachable unprintableSecondState ∧
    Players.keys unprintableSecondState.players = [.str "a", .str "b"] ∧
    unprintableSecondState.playerId 2 = .str "b" ∧
    Players.keys (step unprintableSecondState (.close 2)).1.players = [.str "a"] ∧
    (step unprintableSecondState (.close 2)).2 = [Out.uncaught] ∧
    deletions (.str "b") unprintableSecondState [.close 2] = 1 ∧
    (broadcasts (run unprintableSecondState [.close 2]).2).count
      (ServerMsg.player_left (.str "b")) = 0 ∧
    received 1 (run unprintableSecondState [.close 2]).2 = [] :=
  ⟨reachable_run _ _ Reachable.init, by decide, by decide, by decide, by decide, by decide,
   by decide, by decide⟩

/-- Along every sequence of events the number of `player_left` broadcasts for id `i` is at
most the number of times the key `i` was deleted from the map: what broadcasts
`player_left` has deleted the key just before.  The close event of a connection whose
`playerId` is not registered sends nothing, and a sweep tick makes no `player_left`
broadcast for an id that is not registered. -/
theorem player_left_count_le_deletions (s : Server) (es : List Event) (i : Val)
    (hnd : (Players.keys s.players).Nodup) :
    (broadcasts (run s es).2).count (ServerMsg.player_left i) ≤ deletions i s es ∧
    (∀ ws, Players.has s.players (s.playerId ws) = false → (step s (.close ws)).2 = []) ∧
    (∀ now, Players.has s.players i = false →
      (broadcasts (step s (.tick now)).2).count (ServerMsg.player_left i) = 0) := by
  refine ⟨?_, ?_, ?_⟩
  · induction es generalizing s with
    | nil => exact Nat.le_refl _
    | cons e es ih =>
      show (broadcasts ((step s e).2 ++ (run (step s e).1 es).2)).count _ ≤
        deleted i s.players (step s e).1.players + deletions i (step s e).1 es
      rw [broadcasts_append, List.count_append]
      exact Nat.add_le_add (step_player_left_count s e i hnd)
        (ih (step s e).1 (step_keys_nodup s e hnd))
  · intro ws h
    show (onClose _ s.players (s.playerId ws)).2 = []
    rw [onClose_ignored _ _ _ (Or.inr h)]
  · intro now h
    show (broadcasts (sweep now s.isOpen s.players).2).count _ = 0
    rw [sweep_player_left_count now s.isOpen s.players hnd i]
    simp [deleted, h]

/-! ## Sequences of joins -/

theorem run_joins_get (s : Server) (js : List (Chan × Int × Data)) (i : Val)
    (h : ∀ j ∈ js, j.2.2.type = Val.str "join") :
    Players.get (run s (joinEvents js)).1.players i =
      match lastJoin i js with
      | some j => some (joinRecord j.2.2 j.2.1 j.1)
      | none => Players.get s.players i := by
  induction js generalizing s with
  | nil => rfl
  | cons j js ih =>
    have hj : j.2.2.type = Val.str "join" := h j (List.mem_cons_self _ _)
    have ih' := ih (step s (Event.message j.1 j.2.1 (.value j.2.2))).1
      (fun j' hj' => h j' (List.mem_cons_of_mem _ hj'))
    show Players.get (run (step s (Event.message j.1 j.2.1 (.value j.2.2))).1
      (joinEvents js)).1.players i = _
    rw [ih']
    have hp : (step s (Event.message j.1 j.2.1 (.value j.2.2))).1.players =
        Players.set s.players j.2.2.id (joinRecord j.2.2 j.2.1 j.1) := by
      show (onMessage j.1 s.isOpen j.2.1 (.value j.2.2) s.players (s.playerId j.1)).1 = _
      rw [onMessage_join_players _ _ _ _ _ _ hj]
    cases hl : lastJoin i js with
    | some j' => simp [lastJoin, hl]
    | none =>
      simp only [lastJoin, hl, hp]
      rw [Players.get_set]
      by_cases hi : j.2.2.id = i <;> simp [hi]

theorem lastJoin_isSome_iff (i : Val) (js : List (Chan × Int × Data)) :
    (lastJoin i js).isSome = true ↔ ∃ j ∈ js, j.2.2.id = i := by
  induction js with
  | nil => simp [lastJoin]
  | cons j js ih =>
    cases hl : lastJoin i js with
    | some j' =>
      have := ih.mp (by simp [hl])
      obtain ⟨j2, hj2, hid⟩ := this
      simp only [lastJoin, hl, Option.isSome_some, true_iff]
      exact ⟨j2, List.mem_cons_of_mem _ hj2, hid⟩
    | none =>
      have hno : ¬ ∃ j ∈ js, j.2.2.id = i := fun h => by
        have := ih.mpr h
        simp [hl] at this
      by_cases hi : j.2.2.id = i
      · simp only [lastJoin, hl, hi, if_true, Option.isSome_some, true_iff]
        exact ⟨j, List.mem_cons_self _ _, hi⟩
      · simp only [lastJoin, hl, hi, if_false, Option.isSome_none, Bool.false_eq_true,
          false_iff]
        rintro ⟨j2, hj2, hid⟩
        rcases List.mem_cons.mp hj2 with e | e
        · exact hi (e ▸ hid)
        · exact hno ⟨j2, e, hid⟩

/-- C12: after any sequence of join messages from the empty map, the keys are distinct and
are exactly the ids that were joined, and the record under each id is the one the last join
with that id built (`joinRecord` of its message, time and socket).  A join with an id that
is already a key leaves the keys, their order and the record under every other id as they
were. -/
theorem joins_keep_one_record_per_id (js : List (Chan × Int × Data))
    (h : ∀ j ∈ js, j.2.2.type = Val.str "join") :
    (Players.keys (run Server.init (joinEvents js)).1.players).Nodup ∧
    (∀ i, i ∈ Players.keys (run Server.init (joinEvents js)).1.players ↔
      ∃ j ∈ js, j.2.2.id = i) ∧
    (∀ i, Players.get (run Server.init (joinEvents js)).1.players i =
      (lastJoin i js).map (fun j => joinRecord j.2.2 j.2.1 j.1)) ∧
    (∀ (ws : Chan) (isOpen : Chan → Bool) (now : Int) (data : Data) (players : Players)
        (playerId : Val),
      data.type = Val.str "join" → data.id ∈ Players.keys players →
      Players.keys (onMessage ws isOpen now (.value data) players playerId).1 =
        Players.keys players ∧
      ∀ i, i ≠ data.id →
        Players.get (onMessage ws isOpen now (.value data) players playerId).1 i =
          Players.get players i) := by
  have hget : ∀ i, Players.get (run Server.init (joinEvents js)).1.players i =
      (lastJoin i js).map (fun j => joinRecord j.2.2 j.2.1 j.1) := by
    intro i
    rw [run_joins_get Server.init js i h]
    cases lastJoin i js <;> rfl
  refine ⟨reachable_keys_nodup _ (reachable_run _ _ Reachable.init), ?_, hget, ?_⟩
  · intro i
    rw [← lastJoin_isSome_iff]
    constructor
    · intro hi
      have := Players.has_of_mem_keys _ i hi
      simp only [Players.has, hget] at this
      simpa using this
    · intro hi
      cases hl : lastJoin i js with
      | none => simp [hl] at hi
      | some j =>
        exact Players.mem_keys_of_get _ i (joinRecord j.2.2 j.2.1 j.1) (by rw [hget, hl]; rfl)
  · intro ws isOpen now data players playerId hj hmem
    rw [onMessage_join_players _ _ _ _ _ _ hj]
    refine ⟨?_, ?_⟩
    · rw [Players.keys_set]
      simp [hmem]
    · intro i hi
      rw [Players.get_set]
      have : ¬ data.id = i := fun e => hi e.symm
      simp [this]

/-- C12 at three joins, the third with the id of the first: two records, and "a" holds the
record of the third join (name "A2", socket 3). -/
theorem joins_keep_one_record_per_id_witness :
    (∀ j ∈ [((1 : Chan), (0 : Int), joinMsg (.str "a") (.str "A")),
        (2, 1, joinMsg (.str "b") (.str "B")), (3, 2, joinMsg (.str "a") (.str "A2"))],
      j.2.2.type = Val.str "join") ∧
    Players.keys (run Server.init (joinEvents
      [((1 : Chan), (0 : Int), joinMsg (.str "a") (.str "A")),
        (2, 1, joinMsg (.str "b") (.str "B")), (3, 2, joinMsg (.str "a") (.str "A2"))])).1.players
      = [.str "a", .str "b"] ∧
    Players.get (run Server.init (joinEvents
      [((1 : Chan), (0 : Int), joinMsg (.str "a") (.str "A")),
        (2, 1, joinMsg (.str "b") (.str "B")), (3, 2, joinMsg (.str "a") (.str "A2"))])).1.players
      (.str "a") = some (joinRecord (joinMsg (.str "a") (.str "A2")) 2 3) :=
  ⟨by decide, by decide,
   ((joins_keep_one_record_per_id
      [((1 : Chan), (0 : Int), joinMsg (.str "a") (.str "A")),
        (2, 1, joinMsg (.str "b") (.str "B")), (3, 2, joinMsg (.str "a") (.str "A2"))]
      (by decide)).2.2.1 (.str "a")).trans (by decide)⟩

/-! ## When `lastUpdate` is refreshed -/

/-- C19, as stated, fails: "a" joined on socket 1 at time 0; a message that does not parse,
received on socket 1 at time 5000, leaves `lastUpdate` at 0, and the tick at time 10001
evicts "a". -/
theorem unhandled_message_does_not_refresh_lastUpdate :
    Reachable joinedState ∧
    joinedState.playerId 1 = .str "a" ∧
    (Players.get (step joinedState (.message 1 5000 .malformed)).1.players (.str "a")).map
      (fun p => p.lastUpdate) = some 0 ∧
    (run joinedState [.message 1 5000 .malformed, .tick 10001]).1.players = [] :=
  ⟨reachable_run _ _ Reachable.init, by decide, by decide, by decide⟩

/-- C19, as the code has it: a join received at time `now` leaves the record under its id
with `lastUpdate = now`; an update that is applied (the connection's `playerId` is truthy
and registered) leaves the record under `playerId` with `lastUpdate = now`; every other
message leaves the whole map, every `lastUpdate` included, as it was. -/
theorem lastUpdate_refreshed_by_join_and_applied_update (ws : Chan) (isOpen : Chan → Bool)
    (now : Int) (m : Inbound) (players : Players) (playerId : Val) :
    (∀ data, m = .value data → data.type = Val.str "join" →
      (Players.get (onMessage ws isOpen now m players playerId).1 data.id).map
        (fun p => p.lastUpdate) = some now) ∧
    (∀ data, m = .value data → data.type = Val.str "update" → playerId.truthy = true →
      Players.has players playerId = true →
      (Players.get (onMessage ws isOpen now m players playerId).1 playerId).map
        (fun p => p.lastUpdate) = some now) ∧
    ((¬ ∃ data, m = .value data ∧ (data.type = Val.str "join" ∨
        (data.type = Val.str "update" ∧ playerId.truthy = true ∧
          Players.has players playerId = true))) →
      (onMessage ws isOpen now m players playerId).1 = players) := by
  refine ⟨?_, ?_, ?_⟩
  · rintro data rfl hj
    rw [onMessage_join_players _ _ _ _ _ _ hj, Players.get_set]
    simp [joinRecord]
  · rintro data rfl hu ht hh
    cases hg : Players.get players playerId with
    | none => simp [Players.has, hg] at hh
    | some player =>
      rw [onMessage_update _ _ _ _ _ _ player hu ht hg]
      simp only
      rw [Players.get_set]
      simp [applyUpdate]
  · intro hno
    cases m with
    | malformed => rfl
    | jsonNull => rfl
    | value data =>
      have hj : ¬ data.type = Val.str "join" := fun h => hno ⟨data, rfl, Or.inl h⟩
      by_cases hu : data.type = Val.str "update"
      · cases ht : playerId.truthy
        · rw [onMessage_update_ignored _ _ _ _ _ _ hu (Or.inl ht)]
        · cases hg : Players.get players playerId with
          | none => rw [onMessage_update_ignored _ _ _ _ _ _ hu (Or.inr hg)]
          | some player =>
            exact absurd ⟨data, rfl, Or.inr ⟨hu, ht, by simp [Players.has, hg]⟩⟩ hno
      · simp [onMessage, hj, hu]

/-- C19 (amended) at the update of "a" received on socket 1 at time 9. -/
theorem lastUpdate_refreshed_by_join_and_applied_update_witness :
    (updateMsg 5 2 2 1 0 80 10 1).type = Val.str "update" ∧
    (joinedState.playerId 1).truthy = true ∧
    Players.has joinedState.players (joinedState.playerId 1) = true ∧
    (Players.get (onMessage 1 joinedState.isOpen 9 (.value (updateMsg 5 2 2 1 0 80 10 1))
        joinedState.players (joinedState.playerId 1)).1 (joinedState.playerId 1)).map
      (fun p => p.lastUpdate) = some 9 :=
  ⟨rfl, by decide, by decide,
   (lastUpdate_refreshed_by_join_and_applied_update 1 joinedState.isOpen 9
      (.value (updateMsg 5 2 2 1 0 80 10 1)) joinedState.players (joinedState.playerId 1)).2.1
      (updateMsg 5 2 2 1 0 80 10 1) rfl rfl (by decide) (by decide)⟩

/-! ## Records are keyed by their own id -/

theorem Players.mem_set (m : Players) (k : Val) (v : Player) (e : Val × Player)
    (h : e ∈ Players.set m k v) : e = (k, v) ∨ e ∈ m := by
  induction m with
  | nil =>
    simp only [Players.set, List.mem_singleton] at h
    exact Or.inl h
  | cons hd t ih =>
    obtain ⟨k', v'⟩ := hd
    by_cases hk : k' = k
    · subst hk
      simp only [Players.set, if_true, List.mem_cons] at h
      rcases h with h | h
      · exact Or.inl h
      · exact Or.inr (List.mem_cons_of_mem _ h)
    · simp only [Players.set, hk, if_false, List.mem_cons] at h
      rcases h with h | h
      · exact Or.inr (h ▸ List.mem_cons_self _ _)
      · rcases ih h with h' | h'
        · exact Or.inl h'
        · exact Or.inr (List.mem_cons_of_mem _ h')

theorem step_id_eq_key (s : Server) (e : Event) (h : ∀ x ∈ s.players, x.2.id = x.1) :
    ∀ x ∈ (step s e).1.players, x.2.id = x.1 := by
  cases e with
  | message ws now m =>
    show ∀ x ∈ (onMessage ws s.isOpen now m s.players (s.playerId ws)).1, x.2.id = x.1
    cases m with
    | malformed => exact h
    | jsonNull => exact h
    | value data =>
      by_cases hj : data.type = Val.str "join"
      · rw [onMessage_join_players _ _ _ _ _ _ hj]
        intro x hx
        rcases Players.mem_set _ _ _ _ hx with hx | hx
        · rw [hx]
          rfl
        · exact h x hx
      · by_cases hu : data.type = Val.str "update"
        · cases ht : (s.playerId ws).truthy
          · rw [onMessage_update_ignored _ _ _ _ _ _ hu (Or.inl ht)]
            exact h
          · cases hg : Players.get s.players (s.playerId ws) with
            | none =>
              rw [onMessage_update_ignored _ _ _ _ _ _ hu (Or.inr hg)]
              exact h
            | some player =>
              rw [onMessage_update _ _ _ _ _ _ player hu ht hg]
              intro x hx
              rcases Players.mem_set _ _ _ _ hx with hx | hx
              · rw [hx]
                exact h (s.playerId ws, player) (Players.mem_of_get _ _ _ hg)
              · exact h x hx
        · simpa [onMessage, hj, hu] using h
  | close ws =>
    show ∀ x ∈ (onClose _ s.players (s.playerId ws)).1, x.2.id = x.1
    rcases onClose_players (fun c => if c = ws then false else s.isOpen c) s.players
      (s.playerId ws) with hc | hc
    · rw [hc]
      exact h
    · rw [hc]
      intro x hx
      exact h x (List.mem_of_mem_filter hx)
  | error ws => exact h
  | tick now =>
    show ∀ x ∈ (sweep now s.isOpen s.players).1, x.2.id = x.1
    unfold sweep
    rw [sweepLoop_players]
    intro x hx
    exact h x (List.mem_of_mem_filter hx)
  | notOpen ws => exact h

/-- C20: socket 1 joined with a message that has no `id`, so its record has the id
`undefined` and is stored under the key `undefined`: key and id agree.  Yet for that id the
`init` filter and `broadcast` do not select the same sessions: the filter drops the
joiner's record and keeps "b", while `broadcast`, handed `undefined`, compares the keys
with `null` and writes to "b" and to the joiner. -/
theorem absent_id_filter_and_broadcast_disagree :
    Reachable noIdState ∧
    noIdState.players.map (fun e => (e.1, e.2.id, e.2.ws)) =
      [(.str "b", .str "b", 2), (.undefined, .undefined, 1)] ∧
    ((Players.values noIdState.players).filter
      (fun p => decide (p.id ≠ Val.undefined))).map (fun p => p.ws) = [2] ∧
    recipients noIdState.players noIdState.isOpen Val.undefined = [2, 1] ∧
    (step (step Server.init (.message 2 0 (.value (joinMsg (.str "b") (.str "B"))))).1
      (.message 1 1 (.value (joinMsg .undefined (.str "A"))))).2 =
      [Out.send 1 (.init [defaultView (.str "b") (.str "B")]),
       Out.broadcast (.player_joined (defaultView .undefined (.str "A"))) [2, 1]] :=
  ⟨reachable_run _ _ Reachable.init, by decide, by decide, by decide, by decide⟩

/-- In every reachable state each entry's record has the entry's key as its `id`.  So
dropping the records whose `id` is `x` from `players.values()`, as the `init` filter does,
leaves the records of the entries whose key is not `x`, which is what the test
`id !== excludeId` of `broadcast` keeps; and `broadcast` with an exclusion other than
`undefined` writes to the open sockets of the records whose `id` is not that value. -/
theorem records_keyed_by_own_id (s : Server) (h : Reachable s) :
    (∀ e ∈ s.players, e.2.id = e.1) ∧
    (∀ x, (Players.values s.players).filter (fun p => decide (p.id ≠ x)) =
      Players.values (s.players.filter (fun e => decide (e.1 ≠ x)))) ∧
    (∀ x (isOpen : Chan → Bool), x ≠ Val.undefined →
      recipients s.players isOpen x =
        (s.players.filter (fun e => decide (e.2.id ≠ x) && isOpen e.2.ws)).map
          (fun e => e.2.ws)) := by
  have hinv : ∀ e ∈ s.players, e.2.id = e.1 := by
    induction h with
    | init => intro e he; simp [Server.init] at he
    | step s e _ ih => exact step_id_eq_key s e ih
  refine ⟨hinv, ?_, ?_⟩
  · intro x
    simp only [Players.values, List.filter_map]
    congr 1
    apply List.filter_congr
    intro e he
    simp [Function.comp, hinv e he]
  · intro x isOpen hx
    simp only [recipients, hx, if_false]
    congr 1
    apply List.filter_congr
    intro e he
    rw [hinv e he]

/-! ## Output channels -/

/-- C13, as stated, fails: socket 1 joined as "a" and then as "b"; the map holds two
entries, and both have socket 1 as their output channel. -/
theorem rejoin_leaves_socket_under_two_ids :
    Reachable rejoinState ∧
    rejoinState.players =
      [(.str "a", joinRecord (joinMsg (.str "a") (.str "A")) 0 1),
       (.str "b", joinRecord (joinMsg (.str "b") (.str "B")) 5 1)] ∧
    (Players.get rejoinState.players (.str "a")).map (fun p => p.ws) = some 1 ∧
    (Players.get rejoinState.players (.str "b")).map (fun p => p.ws) = some 1 :=
  ⟨reachable_run _ _ Reachable.init, by decide, by decide, by decide⟩

theorem step_channels_exclusive (s : Server) (e : Event)
    (h : ∀ e1 ∈ s.players, ∀ e2 ∈ s.players, e1.2.ws = e2.2.ws → e1.1 = e2.1)
    (hr : Event.rejoins s.players e = false) :
    ∀ e1 ∈ (step s e).1.players, ∀ e2 ∈ (step s e).1.players,
      e1.2.ws = e2.2.ws → e1.1 = e2.1 := by
  have hsub : ∀ (p : Val × Player → Bool), ∀ e1 ∈ s.players.filter p,
      ∀ e2 ∈ s.players.filter p, e1.2.ws = e2.2.ws → e1.1 = e2.1 :=
    fun p e1 h1 e2 h2 => h e1 (List.mem_of_mem_filter h1) e2 (List.mem_of_mem_filter h2)
  have hset : ∀ (k : Val) (v : Player),
      (∀ x ∈ s.players, x.2.ws = v.ws → x.1 = k) →
      ∀ e1 ∈ Players.set s.players k v, ∀ e2 ∈ Players.set s.players k v,
        e1.2.ws = e2.2.ws → e1.1 = e2.1 := by
    intro k v hk e1 h1 e2 h2 hw
    rcases Players.mem_set _ _ _ _ h1 with h1 | h1 <;>
      rcases Players.mem_set _ _ _ _ h2 with h2 | h2
    · rw [h1, h2]
    · rw [h1] at hw ⊢
      exact (hk e2 h2 hw.symm).symm
    · rw [h2] at hw ⊢
      exact hk e1 h1 hw
    · exact h e1 h1 e2 h2 hw
  cases e with
  | message ws now m =>
    show ∀ e1 ∈ (onMessage ws s.isOpen now m s.players (s.playerId ws)).1,
      ∀ e2 ∈ (onMessage ws s.isOpen now m s.players (s.playerId ws)).1,
        e1.2.ws = e2.2.ws → e1.1 = e2.1
    cases m with
    | malformed => exact h
    | jsonNull => exact h
    | value data =>
      by_cases hj : data.type = Val.str "join"
      · rw [onMessage_join_players _ _ _ _ _ _ hj]
        apply hset
        intro x hx hw
        simp only [Event.rejoins, hj, decide_True, Bool.true_and, List.any_eq_false,
          Bool.and_eq_true, decide_eq_true_eq, not_and, not_not] at hr
        exact hr x hx hw
      · by_cases hu : data.type = Val.str "update"
        · cases ht : (s.playerId ws).truthy
          · rw [onMessage_update_ignored _ _ _ _ _ _ hu (Or.inl ht)]
            exact h
          · cases hg : Players.get s.players (s.playerId ws) with
            | none =>
              rw [onMessage_update_ignored _ _ _ _ _ _ hu (Or.inr hg)]
              exact h
            | some player =>
              rw [onMessage_update _ _ _ _ _ _ player hu ht hg]
              apply hset
              intro x hx hw
              exact h x hx (s.playerId ws, player) (Players.mem_of_get _ _ _ hg) hw
        · simpa [onMessage, hj, hu] using h
  | close ws =>
    show ∀ e1 ∈ (onClose _ s.players (s.playerId ws)).1,
      ∀ e2 ∈ (onClose _ s.players (s.playerId ws)).1, e1.2.ws = e2.2.ws → e1.1 = e2.1
    rcases onClose_players (fun c => if c = ws then false else s.isOpen c) s.players
      (s.playerId ws) with hc | hc
    · rw [hc]
      exact h
    · rw [hc]
      exact hsub _
  | error ws => exact h
  | tick now =>
    show ∀ e1 ∈ (sweep now s.isOpen s.players).1, ∀ e2 ∈ (sweep now s.isOpen s.players).1,
      e1.2.ws = e2.2.ws → e1.1 = e2.1
    unfold sweep
    rw [sweepLoop_players]
    exact hsub _
  | notOpen ws => exact h

theorem run_channels_exclusive (s : Server) (es : List Event)
    (h : ∀ e1 ∈ s.players, ∀ e2 ∈ s.players, e1.2.ws = e2.2.ws → e1.1 = e2.1)
    (hr : noRejoin s es = true) :
    ∀ e1 ∈ (run s es).1.players, ∀ e2 ∈ (run s es).1.players,
      e1.2.ws = e2.2.ws → e1.1 = e2.1 := by
  induction es generalizing s with
  | nil => exact h
  | cons e es ih =>
    simp only [noRejoin, Bool.and_eq_true, Bool.not_eq_true'] at hr
    exact ih (step s e).1 (step_channels_exclusive s e h hr.1) hr.2

/-- C13, as the code has it: along a sequence of events in which no join is received on a
socket that the map holds under another id, two entries of the map with the same output
channel are the same entry. -/
theorem channels_exclusive_without_rejoin (es : List Event)
    (h : noRejoin Server.init es = true) :
    ∀ e1 ∈ (run Server.init es).1.players, ∀ e2 ∈ (run Server.init es).1.players,
      e1.2.ws = e2.2.ws → e1 = e2 := by
  intro e1 h1 e2 h2 hw
  have hk := run_channels_exclusive Server.init es
    (by intro e1 h1; simp [Server.init] at h1) h e1 h1 e2 h2 hw
  exact Players.eq_of_key_eq _
    (reachable_keys_nodup _ (reachable_run _ _ Reachable.init)) e1 e2 h1 h2 hk

/-- C13 (amended) at three joins on three sockets, the third with the id of the first. -/
theorem channels_exclusive_without_rejoin_witness :
    noRejoin Server.init
      [.message 1 0 (.value (joinMsg (.str "a") (.str "A"))),
       .message 2 1 (.value (joinMsg (.str "b") (.str "B"))),
       .message 3 2 (.value (joinMsg (.str "a") (.str "A2")))] = true ∧
    ∀ e1 ∈ (run Server.init
        [.message 1 0 (.value (joinMsg (.str "a") (.str "A"))),
         .message 2 1 (.value (joinMsg (.str "b") (.str "B"))),
         .message 3 2 (.value (joinMsg (.str "a") (.str "A2")))]).1.players,
      ∀ e2 ∈ (run Server.init
        [.message 1 0 (.value (joinMsg (.str "a") (.str "A"))),
         .message 2 1 (.value (joinMsg (.str "b") (.str "B"))),
         .message 3 2 (.value (joinMsg (.str "a") (.str "A2")))]).1.players,
      e1.2.ws = e2.2.ws → e1 = e2 :=
  ⟨by decide,
   channels_exclusive_without_rejoin
     [.message 1 0 (.value (joinMsg (.str "a") (.str "A"))),
      .message 2 1 (.value (joinMsg (.str "b") (.str "B"))),
      .message 3 2 (.value (joinMsg (.str "a") (.str "A2")))] (by decide)⟩

/-! ## The broadcast primitive -/

/-- C14: socket 1 joined with the id `null` and is open; when "b" (socket 2) closes, the
`player_left` broadcast, made without `excludeId`, writes to nobody: the default value
`null` of the parameter excludes the entry keyed `null`.  With an exclusion given, "b"
here, that entry is written. -/
theorem broadcast_without_exclusion_skips_null_key :
    Reachable nullIdState ∧
    nullIdState.isOpen 1 = true ∧
    (Players.get nullIdState.players .null).map (fun p => p.ws) = some 1 ∧
    (step nullIdState (.close 2)).1.players =
      [(.null, joinRecord (joinMsg .null (.str "N")) 0 1)] ∧
    (step nullIdState (.close 2)).2 = [Out.broadcast (.player_left (.str "b")) []] ∧
    recipients nullIdState.players nullIdState.isOpen .undefined = [2] ∧
    recipients nullIdState.players nullIdState.isOpen (.str "b") = [1] :=
  ⟨reachable_run _ _ Reachable.init, by decide, by decide, by decide, by decide, by decide,
   by decide⟩

theorem recipients_given (players : Players) (isOpen : Chan → Bool) (x : Val)
    (hx : x ≠ Val.undefined) :
    recipients players isOpen x =
      (players.filter (fun e => decide (e.1 ≠ x) && isOpen e.2.ws)).map (fun e => e.2.ws) := by
  simp [recipients, hx]

theorem recipients_default (players : Players) (isOpen : Chan → Bool) :
    recipients players isOpen Val.undefined =
      (players.filter (fun e => decide (e.1 ≠ Val.null) && isOpen e.2.ws)).map
        (fun e => e.2.ws) := by
  simp [recipients]

end Shooter
